import Mathlib

/-!
Verification of the cleaning-and-analysis engine of `src/utils/dataAnalysis.ts`.

Shallow embedding conventions:
* JavaScript scalar cell values (`number`, `boolean`, `string`, `null`) are
  modelled by `Value`.  IEEE doubles are embedded as exact rationals `ℚ`;
  every threshold the engine compares against (0.7, 0.8, 0.5, 1.5, 0.1,
  0.3, 0.7) is an exactly representable fraction, and the quantities the
  engine derives from datasets of feasible size differ from those fractions
  by far more than double rounding error, so the exact model decides every
  comparison the way the floating-point program does.  `NaN`-producing
  divisions (`0/0` for empty columns, the null percentage of a zero-row
  dataset) are modelled explicitly with `Option ℚ` (`none` = `NaN`) where the
  `NaN` can flow into a result; where a `NaN` is only ever fed into a
  comparison (which JavaScript answers `false`), the model spells the
  comparison out on the guarded branch.
* A row (a JS object) is an insertion-ordered association list
  `List (String × Value)`; a missing key models JS `undefined`.
  `{ ...row, [k]: v }` and `row[k] = v` update the value at the existing
  position of `k`, or append `k` at the end, which is `setKey`.
* `JSON.stringify(row)` enumerates keys in JS property order: keys that are
  canonical array indices first, in ascending numeric order, then the
  remaining keys in insertion order.  The serialization is injective on the
  key-ordered association list, so the dedup key is modelled by the
  reordered list itself (`rowKey`).
* `Array.prototype.sort` with a comparator is a stable sort; it is modelled
  by a stable insertion sort `sortJs` (structurally recursive so that
  concrete runs reduce in the kernel).
* `arr.reduce(f)` with no initial value throws a `TypeError` on an empty
  array; this partiality is modelled by `reduceNoInit` returning `Option`,
  and propagated: `cleanDataset`/`analyzeData` return `none` exactly when
  the original program throws.
* `Number(string)` is modelled by a decimal parser `parseJsNumber`
  (optional sign, digits, fraction, exponent, surrounding whitespace,
  "" ↦ 0).  Hexadecimal/binary/`Infinity` forms of the host parser are not
  modelled; no claim exercises them.  `String(number)` is exact for integral
  values; non-integral rationals render as `num/den` (no claim exercises
  them).  The host `Date` parser behind `isDateString` is modelled by an
  ISO `YYYY-MM-DD` prefix check; every string a claim exercises has length
  ≤ 8, which short-circuits before the parse is consulted.
-/

/-- A JavaScript scalar cell value.  `undefined` is represented by key
absence in a row (lookup returning `none`), not by a `Value`. -/
inductive Value where
  | num (q : ℚ)
  | bool (b : Bool)
  | str (s : String)
  | null
deriving DecidableEq

/-- A JS object row: insertion-ordered association list from column name to
value. -/
abbrev Row := List (String × Value)

/-- First-match lookup, i.e. JS property access `row[c]` (`none` =
`undefined`). -/
def lookupJS : Row → String → Option Value
  | [], _ => none
  | (k, v) :: r, c => if k = c then some v else lookupJS r c

/-- JS property write `row[c] = v` / spread-override `{ ...row, [c]: v }`:
updates the value at the existing position of `c`, or appends. -/
def setKey : Row → String → Value → Row
  | [], c, v => [(c, v)]
  | (k, w) :: r, c, v => if k = c then (k, v) :: r else (k, w) :: setKey r c v

/-- The null/empty test `v === null || v === undefined || v === ''` applied
to a present value (`undefined` is handled at the `Option` level). -/
def isMissingVal : Value → Bool
  | .null => true
  | .str s => s = ""
  | _ => false

/-- The null/empty test on a property access result. -/
def isMissingOpt : Option Value → Bool
  | none => true
  | some v => isMissingVal v

/-- `Object.values(row)` (keys of a JS object are distinct; on the
well-formed rows the engine receives this is the list of stored values). -/
def rowValues (r : Row) : List Value := r.map Prod.snd

/-- Digit characters to their value. -/
def digitVal (c : Char) : Nat := c.toNat - 48

def isDigitChar (c : Char) : Bool := 48 ≤ c.toNat ∧ c.toNat ≤ 57

/-- Value of a digit string, most significant first. -/
def digitsVal (cs : List Char) : Nat := cs.foldl (fun acc c => 10 * acc + digitVal c) 0

/-- ASCII whitespace trim (models the whitespace stripping `Number` does). -/
def trimWs (cs : List Char) : List Char :=
  ((cs.dropWhile (fun c => c.toNat ≤ 32)).reverse.dropWhile (fun c => c.toNat ≤ 32)).reverse

/-- Parse an optional exponent suffix (`e`/`E`, optional sign, digits);
returns the exponent and requires the rest to be empty. -/
def parseExpPart : List Char → Option ℤ
  | [] => some 0
  | c :: rest =>
    if c = 'e' ∨ c = 'E' then
      match rest with
      | '+' :: ds => if ds ≠ [] ∧ ds.all isDigitChar then some (digitsVal ds) else none
      | '-' :: ds => if ds ≠ [] ∧ ds.all isDigitChar then some (-(digitsVal ds : ℤ)) else none
      | ds => if ds ≠ [] ∧ ds.all isDigitChar then some (digitsVal ds) else none
    else none

/-- Parse the unsigned mantissa `digits [. digits]` followed by an optional
exponent; at least one digit must be present on one side of the dot. -/
def parseMantissa (cs : List Char) : Option ℚ :=
  let intPart := cs.takeWhile isDigitChar
  let rest := cs.dropWhile isDigitChar
  match rest with
  | '.' :: rest2 =>
    let fracPart := rest2.takeWhile isDigitChar
    let rest3 := rest2.dropWhile isDigitChar
    if intPart = [] ∧ fracPart = [] then none
    else
      (parseExpPart rest3).map fun e =>
        ((digitsVal intPart : ℚ) + (digitsVal fracPart : ℚ) / (10 : ℚ) ^ fracPart.length)
          * (10 : ℚ) ^ e
  | _ =>
    if intPart = [] then none
    else (parseExpPart rest).map fun e => (digitsVal intPart : ℚ) * (10 : ℚ) ^ e

/-- The numeric value of `Number(s)` for a string `s`, `none` when the
result is `NaN`.  Decimal forms only (see the header note). -/
def parseJsNumber (s : String) : Option ℚ :=
  match trimWs s.toList with
  | [] => some 0
  | '+' :: cs => parseMantissa cs
  | '-' :: cs => (parseMantissa cs).map Neg.neg
  | cs => parseMantissa cs

/-- `Number(v)` on a present value, `none` when the result is `NaN`. -/
def jsToNumber : Value → Option ℚ
  | .num q => some q
  | .bool b => some (if b then 1 else 0)
  | .null => some 0
  | .str s => parseJsNumber s

/-- `Number(row[c])`: `Number(undefined)` is `NaN`. -/
def jsToNumberOpt : Option Value → Option ℚ
  | none => none
  | some v => jsToNumber v

/-- `String(q)` for a JS number: exact for integral values; non-integral
rationals render as `num/den` (a model-level stand-in for the double
decimal expansion, not exercised by any claim). -/
def jsNumToString (q : ℚ) : String :=
  if q.den = 1 then toString q.num else toString q.num ++ "/" ++ toString q.den

/-- `String(v)` on a present value. -/
def jsString : Value → String
  | .num q => jsNumToString q
  | .bool b => if b then "true" else "false"
  | .str s => s
  | .null => "null"

/-- `String(row[c])`: `String(undefined)` is `"undefined"`. -/
def jsStringOpt : Option Value → String
  | none => "undefined"
  | some v => jsString v

/-- ASCII `toLowerCase` (no claim exercises non-ASCII letters). -/
def toLowerAscii (s : String) : String :=
  String.mk (s.toList.map fun c =>
    if 65 ≤ c.toNat ∧ c.toNat ≤ 90 then Char.ofNat (c.toNat + 32) else c)

/-- Stable insertion of `x` into a sorted list: `x` goes before the first
element `y` with `le x y`. -/
def insertLe {α : Type} (le : α → α → Bool) (x : α) : List α → List α
  | [] => [x]
  | y :: ys => if le x y then x :: y :: ys else y :: insertLe le x ys

/-- Stable sort modelling `Array.prototype.sort` with a comparator
(ECMAScript sorts are stable); structurally recursive so concrete runs
reduce in the kernel. -/
def sortJs {α : Type} (le : α → α → Bool) : List α → List α
  | [] => []
  | x :: xs => insertLe le x (sortJs le xs)

/-- `arr.reduce(f)` with no initial value: throws (`none`) on an empty
array, otherwise folds from the first element. -/
def reduceNoInit {α : Type} (f : α → α → α) : List α → Option α
  | [] => none
  | x :: xs => some (xs.foldl f x)

/-- Build a frequency table in first-insertion order
(`freq[key] = (freq[key] || 0) + 1`). -/
def bumpKey {α : Type} [DecidableEq α] : List (α × Nat) → α → List (α × Nat)
  | [], k => [(k, 1)]
  | (k', n) :: rest, k => if k' = k then (k', n + 1) :: rest else (k', n) :: bumpKey rest k

def buildFreq {α : Type} [DecidableEq α] (l : List α) : List (α × Nat) :=
  l.foldl bumpKey []

/-- Whether a string key is a canonical array index (JS property order puts
these first, numerically ascending). -/
def isArrayIndexKey (s : String) : Bool :=
  match s.toNat? with
  | some n => decide (toString n = s ∧ n < 4294967295)
  | none => false

def keyNatVal (s : String) : Nat := s.toNat?.getD 0

/-- JS own-property enumeration order (`Object.entries`, `JSON.stringify`):
canonical array-index keys first in ascending numeric order, then the
remaining keys in insertion order. -/
def jsOrderKeys {α : Type} (l : List (String × α)) : List (String × α) :=
  sortJs (fun a b => keyNatVal a.1 ≤ keyNatVal b.1) (l.filter fun e => isArrayIndexKey e.1)
    ++ l.filter fun e => !isArrayIndexKey e.1

/-- Whether a JS number used as an object key stringifies to a canonical
array index. -/
def isArrayIndexRat (q : ℚ) : Bool := q.den = 1 ∧ 0 ≤ q.num ∧ q.num < 4294967295

/-- JS own-property enumeration order for a `Record<number, …>`. -/
def jsOrderRatKeys {α : Type} (l : List (ℚ × α)) : List (ℚ × α) :=
  sortJs (fun a b => a.1 ≤ b.1) (l.filter fun e => isArrayIndexRat e.1)
    ++ l.filter fun e => !isArrayIndexRat e.1

/-- The dedup key of a row: `JSON.stringify(row)` is injective on the
JS-key-ordered entry list, so the reordered list itself stands in for the
serialized string. -/
def rowKey (r : Row) : Row := jsOrderKeys r

/-! ## The cleaning pipeline (`cleanDataset`, `analyzeColumnsForCleaning`) -/

/-- The cleaning-path column categories (the cleaning classifier has no
datetime category). -/
inductive CleanType where
  | numeric
  | categorical
  | boolean
deriving DecidableEq

/-- The per-column record `analyzeColumnsForCleaning` stores: fields the
source leaves `undefined` on a branch are `none`. -/
structure ColCleanInfo where
  type : CleanType
  values : List Value
  median : Option ℚ
  mode : Option String
  q1 : Option ℚ
  q3 : Option ℚ
deriving DecidableEq

instance : Inhabited ColCleanInfo :=
  ⟨⟨.categorical, [], none, none, none, none⟩⟩

/-- `data.map(row => row[col])`. -/
def colRaw (data : List Row) (c : String) : List (Option Value) :=
  data.map fun r => lookupJS r c

/-- `data.map(row => row[col]).filter(v => v !== null && v !== undefined && v !== '')`. -/
def colNonNull (data : List Row) (c : String) : List Value :=
  (colRaw data c).filterMap fun o =>
    match o with
    | some v => if isMissingVal v then none else some v
    | none => none

/-- The cleaning-path numeric test
`typeof v === 'number' || (!isNaN(Number(v)) && v !== '')`. -/
def isNumericJs (v : Value) : Bool :=
  match v with
  | .num _ => true
  | v => (jsToNumber v).isSome ∧ v ≠ .str ""

/-- The cleaning-path boolean test: a native boolean, or
`String(v).toLowerCase()` among the six boolean word forms. -/
def isBooleanLike (v : Value) : Bool :=
  match v with
  | .bool _ => true
  | v => ["true", "false", "1", "0", "yes", "no"].contains (toLowerAscii (jsString v))

/-- One column of `analyzeColumnsForCleaning`.  The 0.7 numeric-fraction
comparison is exact (`0/0` is `NaN` in JS and `0` in `ℚ`; both fail the
`> 0.7` test).  The mode `reduce` has no initial value and throws on a
column with no non-null values, hence the `Option`. -/
def analyzeColumnForCleaning (data : List Row) (c : String) : Option ColCleanInfo :=
  let values := colNonNull data c
  let numericValues := values.filter isNumericJs
  if (numericValues.length : ℚ) / (values.length : ℚ) > 7/10 then
    let nums := sortJs (fun a b => a ≤ b) (numericValues.map fun v => (jsToNumber v).getD 0)
    some { type := .numeric, values,
           median := nums.get? (nums.length / 2),
           mode := none,
           q1 := nums.get? (nums.length / 4),
           q3 := nums.get? (3 * nums.length / 4) }
  else
    let t : CleanType := if values.any isBooleanLike then .boolean else .categorical
    match reduceNoInit (fun a b => if a.2 > b.2 then a else b)
        (jsOrderKeys (buildFreq (values.map jsString))) with
    | none => none
    | some m => some { type := t, values, median := none, mode := some m.1,
                       q1 := none, q3 := none }

/-- The cleaning-path analysis of every column; `none` as soon as one
column's mode computation throws. -/
def analyzeColumnsForCleaning (data : List Row) : List String → Option (List (String × ColCleanInfo))
  | [] => some []
  | c :: cs =>
    match analyzeColumnForCleaning data c with
    | none => none
    | some info =>
      match analyzeColumnsForCleaning data cs with
      | none => none
      | some rest => some ((c, info) :: rest)

/-- Dictionary access `columnAnalysis[col]` (always present for a listed
column; the default is unreachable there). -/
def getInfo (analysis : List (String × ColCleanInfo)) (c : String) : ColCleanInfo :=
  ((analysis.find? fun e => e.1 = c).map Prod.snd).getD default

/-- The step-1 keep test `Object.values(row).some(v => v !== null && v !==
undefined && v !== '')`. -/
def rowHasValue (r : Row) : Bool :=
  (rowValues r).any fun v => !isMissingVal v

/-- Step 1: drop rows where every stored value is null/empty. -/
def removeEmptyRows (rows : List Row) : List Row :=
  rows.filter rowHasValue

/-- Step 2 seen-set recursion: keep a row iff its serialization key is new. -/
def dedupGo (seen : List Row) : List Row → List Row
  | [] => []
  | r :: rs =>
    if rowKey r ∈ seen then dedupGo seen rs
    else r :: dedupGo (rowKey r :: seen) rs

/-- Step 2: duplicate-row removal, first occurrence kept. -/
def dedupRows (rows : List Row) : List Row := dedupGo [] rows

/-- The value step 4 fills a missing cell with: column median for numeric
(`colInfo.median || 0`), column mode for categorical
(`colInfo.mode || 'Unknown'`), `false` for boolean. -/
def imputeValue (info : ColCleanInfo) : Value :=
  match info.type with
  | .numeric => .num (info.median.getD 0)
  | .categorical =>
    .str (match info.mode with
          | some m => if m = "" then "Unknown" else m
          | none => "Unknown")
  | .boolean => .bool false

/-- Step 4 on one row: fill every null/undefined/empty cell of a listed
column, counting the fills. -/
def imputeCols (analysis : List (String × ColCleanInfo)) : List String → Row → Row × Nat
  | [], r => (r, 0)
  | c :: cs, r =>
    if isMissingOpt (lookupJS r c) then
      let p := imputeCols analysis cs (setKey r c (imputeValue (getInfo analysis c)))
      (p.1, p.2 + 1)
    else imputeCols analysis cs r

/-- Step 4 over all rows, with the total fill count. -/
def imputeAll (analysis : List (String × ColCleanInfo)) (cols : List String) : List Row → List Row × Nat
  | [] => ([], 0)
  | r :: rs =>
    let p := imputeCols analysis cols r
    let q := imputeAll analysis cols rs
    (p.1 :: q.1, p.2 + q.2)

/-- The IQR fences `[q1 − 1.5·iqr, q3 + 1.5·iqr]` computed in step 5
(`q1 = colInfo.q1 || 0`, `q3 = colInfo.q3 || 0`). -/
def iqrBounds (info : ColCleanInfo) : ℚ × ℚ :=
  let q1 := info.q1.getD 0
  let q3 := info.q3.getD 0
  let iqr := q3 - q1
  (q1 - 3/2 * iqr, q3 + 3/2 * iqr)

/-- Step 5 for one numeric column with more than 10 non-null values: clamp
each number cell outside the fences to the nearer fence, counting the
clamped cells.  Other columns pass through unchanged. -/
def capColumn (info : ColCleanInfo) (c : String) (rows : List Row) : List Row × Nat :=
  if info.type = .numeric ∧ 10 < info.values.length then
    let lo := (iqrBounds info).1
    let hi := (iqrBounds info).2
    rows.foldr (fun row acc =>
      match lookupJS row c with
      | some (.num x) =>
        if x < lo ∨ x > hi then
          (setKey row c (.num (if x < lo then lo else hi)) :: acc.1, acc.2 + 1)
        else (row :: acc.1, acc.2)
      | _ => (row :: acc.1, acc.2)) ([], 0)
  else (rows, 0)

/-- Step 5 over all columns in order, accumulating the treated-outlier
count and the per-column log lines. -/
def capAll (analysis : List (String × ColCleanInfo)) : List String → List Row → List Row × Nat × List String
  | [], rows => (rows, 0, [])
  | c :: cs, rows =>
    let p := capColumn (getInfo analysis c) c rows
    let rest := capAll analysis cs p.1
    (rest.1, p.2 + rest.2.1,
      (if p.2 > 0 then ["Capped " ++ toString p.2 ++ " outliers in column \"" ++ c ++ "\""] else [])
        ++ rest.2.2)

/-- Whether a property access yielded a native number (`typeof value ===
'number'`). -/
def isNumValOpt : Option Value → Bool
  | some (.num _) => true
  | _ => false

/-- Whether a property access yielded a native boolean. -/
def isBoolValOpt : Option Value → Bool
  | some (.bool _) => true
  | _ => false

/-- Step 6 on one row: coerce non-number cells of numeric columns through
`Number(...)` (left unchanged on `NaN`), and non-boolean cells of boolean
columns through the four word forms; count the corrections. -/
def coerceCols (analysis : List (String × ColCleanInfo)) : List String → Row → Row × Nat
  | [], r => (r, 0)
  | c :: cs, r =>
    let info := getInfo analysis c
    let v := lookupJS r c
    let step : Row × Nat :=
      if info.type = .numeric ∧ ¬ isNumValOpt v then
        match jsToNumberOpt v with
        | some q => (setKey r c (.num q), 1)
        | none => (r, 0)
      else if info.type = .boolean ∧ ¬ isBoolValOpt v then
        let sv := toLowerAscii (jsStringOpt v)
        if ["true", "1", "yes", "y"].contains sv then (setKey r c (.bool true), 1)
        else if ["false", "0", "no", "n"].contains sv then (setKey r c (.bool false), 1)
        else (r, 0)
      else (r, 0)
    let p := coerceCols analysis cs step.1
    (p.1, step.2 + p.2)

/-- Step 6 over all rows. -/
def coerceAll (analysis : List (String × ColCleanInfo)) (cols : List String) : List Row → List Row × Nat
  | [] => ([], 0)
  | r :: rs =>
    let p := coerceCols analysis cols r
    let q := coerceAll analysis cols rs
    (p.1 :: q.1, p.2 + q.2)

/-- Step 7: keep rows whose non-null fraction is at least 0.5
(`nonNull / columns.length >= 0.5`; for a zero-column list the JS quotient
is `NaN` for an empty row — dropped — and `Infinity` for a row with a
non-null value — kept). -/
def sparseFilter (colCount : Nat) (rows : List Row) : List Row :=
  rows.filter fun r =>
    let nonNull := (rowValues r).countP fun v => !isMissingVal v
    if colCount = 0 then nonNull ≠ 0 else 2 * nonNull ≥ colCount

/-- The cleaning report of `cleanDataset`. -/
structure CleaningRep where
  originalRows : Nat
  cleanedRows : Nat
  removedDuplicates : Nat
  handledMissingValues : Nat
  outliersTreated : Nat
  dataTypeCorrections : Nat
  cleaningActions : List String
deriving DecidableEq

/-- Steps 1–7 after the column analysis succeeded. -/
def cleanRest (data : List Row) (cols : List String) (analysis : List (String × ColCleanInfo)) :
    List Row × CleaningRep :=
  let d1 := removeEmptyRows data
  let d2 := dedupRows d1
  let removedDuplicates := d1.length - d2.length
  let p4 := imputeAll analysis cols d2
  let p5 := capAll analysis cols p4.1
  let p6 := coerceAll analysis cols p5.1
  let d7 := sparseFilter cols.length p6.1
  (d7,
   { originalRows := data.length
     cleanedRows := d7.length
     removedDuplicates
     handledMissingValues := p4.2
     outliersTreated := p5.2.1
     dataTypeCorrections := p6.2
     cleaningActions :=
       (if d1.length < data.length then
          ["Removed " ++ toString (data.length - d1.length) ++ " completely empty rows"] else [])
       ++ (if removedDuplicates > 0 then
             ["Removed " ++ toString removedDuplicates ++ " duplicate rows"] else [])
       ++ (if p4.2 > 0 then
             ["Filled " ++ toString p4.2 ++ " missing values using statistical imputation"] else [])
       ++ p5.2.2
       ++ (if p6.2 > 0 then
             ["Corrected " ++ toString p6.2 ++ " data type inconsistencies"] else [])
       ++ (if p6.1.length > d7.length then
             ["Removed " ++ toString (p6.1.length - d7.length) ++ " rows with >50% missing data"] else []) })

/-- The cleaning pipeline `cleanDataset(data, columns)`; `none` exactly when
the original throws (mode `reduce` over an empty frequency table in
step 3). -/
def cleanDataset (data : List Row) (cols : List String) : Option (List Row × CleaningRep) :=
  (analyzeColumnsForCleaning (dedupRows (removeEmptyRows data)) cols).map
    (cleanRest data cols)

/-! ## The analysis engine (`analyzeData` and helpers) -/

/-- The dataset record the analysis functions consume (`data`, `columns`,
`rowCount`; the ingestion-only metadata fields are irrelevant to the
engine). -/
structure Dataset where
  data : List Row
  columns : List String
  rowCount : Nat
deriving DecidableEq

/-- Report-path column categories. -/
inductive ColType where
  | numeric
  | categorical
  | datetime
  | boolean
deriving DecidableEq

/-- Permissive date test `isDateString`: a string longer than 8 characters
that the host `Date` parser accepts.  The parser is modelled by an ISO
`YYYY-MM-DD` prefix check (see the header note). -/
def jsParsesAsDate (s : String) : Bool :=
  match s.toList with
  | y1 :: y2 :: y3 :: y4 :: '-' :: m1 :: m2 :: '-' :: d1 :: d2 :: _ =>
    [y1, y2, y3, y4, m1, m2, d1, d2].all isDigitChar
  | _ => false

def isDateString (v : Value) : Bool :=
  match v with
  | .str s => 8 < s.length ∧ jsParsesAsDate s
  | _ => false

/-- The report-path per-column descriptor.  `nullPercentage` is `none` when
the JS value is `NaN` (zero-row dataset). -/
structure ColumnInfo where
  name : String
  type : ColType
  uniqueValues : Nat
  nullCount : Nat
  nullPercentage : Option ℚ
  sampleValues : List Value
deriving DecidableEq

/-- One column of `analyzeColumns`.  Numeric counts only native numbers
(`typeof v === 'number' && !isNaN(v)`); boolean only native booleans
(`v === true || v === false`).  The `> 0.8` fraction test is exact
(`0/0` is `NaN` in JS and `0` in `ℚ`; both fail it). -/
def analyzeColumnInfo (data : List Row) (c : String) : ColumnInfo :=
  let values := colRaw data c
  let nonNull := colNonNull data c
  let numericValues := nonNull.filter fun v => isNumValOpt (some v)
  { name := c
    type :=
      if (numericValues.length : ℚ) / (nonNull.length : ℚ) > 4/5 then .numeric
      else if nonNull.any (fun v => isBoolValOpt (some v)) then .boolean
      else if nonNull.any isDateString then .datetime
      else .categorical
    uniqueValues := nonNull.dedup.length
    nullCount := values.length - nonNull.length
    nullPercentage :=
      if values.length = 0 then none
      else some (((values.length - nonNull.length : Nat) : ℚ) / (values.length : ℚ) * 100)
    sampleValues := nonNull.take 5 }

/-- `analyzeColumns(dataset)`. -/
def analyzeColumns (ds : Dataset) : List ColumnInfo :=
  ds.columns.map (analyzeColumnInfo ds.data)

/-- The numeric column statistics.  The source also stores `stdDev`,
`skewness` and `kurtosis`, which are irrational images of these fields
(`stdDev = √variance`, `skewness = m3 / stdDev³`,
`kurtosis = m4 / stdDev⁴ − 3`); the model stores the exact central moments
`variance`, `m3`, `m4` instead, from which every comparison the program
performs on those three is decided exactly (see the insight rules). -/
structure NumericStats where
  mean : ℚ
  median : ℚ
  mode : ℚ
  min : ℚ
  max : ℚ
  variance : ℚ
  range : ℚ
  q1 : ℚ
  q3 : ℚ
  iqr : ℚ
  m3 : ℚ
  m4 : ℚ
deriving DecidableEq

/-- The native-number cell values of a column, in row order. -/
def colNumbers (data : List Row) (c : String) : List ℚ :=
  data.filterMap fun r =>
    match lookupJS r c with
    | some (.num q) => some q
    | _ => none

/-- Central moment `Σ (v − mean)^k / n`. -/
def centralMoment (values : List ℚ) (mean : ℚ) (k : Nat) : ℚ :=
  (values.map fun v => (v - mean) ^ k).sum / (values.length : ℚ)

/-- `calculateNumericStats` for one column with a non-empty sorted value
list; the mode `reduce` over the frequency table keyed by the number
(JS object keys `String(v)`, enumerated array-index keys first ascending)
throws on an empty table, hence the `Option` — unreachable here because the
empty case is filtered by the caller, which theorem
`calculateNumericStats_total` makes precise. -/
def numericStatsOf (values : List ℚ) : Option NumericStats :=
  match reduceNoInit (fun a b => if a.2 > b.2 then a else b)
      (jsOrderRatKeys (buildFreq values)) with
  | none => none
  | some m =>
    let n := values.length
    let mean := values.sum / (n : ℚ)
    let min := values.head?.getD 0
    let max := values.getLast?.getD 0
    some { mean
           median := (values.get? (n / 2)).getD 0
           mode := m.1
           min, max
           variance := centralMoment values mean 2
           range := max - min
           q1 := (values.get? (n / 4)).getD 0
           q3 := (values.get? (3 * n / 4)).getD 0
           iqr := (values.get? (3 * n / 4)).getD 0 - (values.get? (n / 4)).getD 0
           m3 := centralMoment values mean 3
           m4 := centralMoment values mean 4 }

/-- `calculateNumericStats`: per numeric column, the ascending-sorted
native-number values; columns with no such values are skipped
(`if (values.length === 0) return`). -/
def calculateNumericStats (data : List Row) : List ColumnInfo → Option (List (String × NumericStats))
  | [] => some []
  | col :: rest =>
    let values := sortJs (fun a b => a ≤ b) (colNumbers data col.name)
    if values.length = 0 then calculateNumericStats data rest
    else
      match numericStatsOf values with
      | none => none
      | some st =>
        match calculateNumericStats data rest with
        | none => none
        | some tail => some ((col.name, st) :: tail)

/-- Categorical column statistics. -/
structure CategoricalStats where
  topCategories : List (String × Nat × ℚ)
  uniqueCount : Nat
  mostFrequent : String
  leastFrequent : String
deriving DecidableEq

/-- `calculateCategoricalStats`: frequency table over `String(v)` keys in
JS enumeration order, sorted by descending count (stable), with
percentages; columns with no non-null values are skipped. -/
def calculateCategoricalStats (data : List Row) : List ColumnInfo → List (String × CategoricalStats)
  | [] => []
  | col :: rest =>
    let values := colNonNull data col.name
    if values.length = 0 then calculateCategoricalStats data rest
    else
      let freq := jsOrderKeys (buildFreq (values.map jsString))
      let sortedCats := sortJs (fun a b => b.2 ≤ a.2)
        (freq.map fun e => (e.1, e.2, (e.2 : ℚ) / (values.length : ℚ) * 100))
      (col.name,
       { topCategories := sortedCats
         uniqueCount := freq.length
         mostFrequent := ((sortedCats.head?.map fun e => e.1).getD "")
         leastFrequent := ((sortedCats.getLast?.map fun e => e.1).getD "") })
        :: calculateCategoricalStats data rest

inductive CorrStrength where
  | weak
  | moderate
  | strong
deriving DecidableEq

inductive CorrDirection where
  | positive
  | negative
deriving DecidableEq

/-- A correlation record.  The source stores the float coefficient
`num / √den2`; the model stores the exact Pearson numerator `coeffNum` and
squared denominator `coeffDen2` (the source compares only `|coefficient|`
against thresholds and its sign, both decided exactly from these), plus the
exact coefficient when the square root is rational. -/
structure Correlation where
  column1 : String
  column2 : String
  coeffNum : ℚ
  coeffDen2 : ℚ
  coefficient : Option ℚ
  strength : CorrStrength
  direction : CorrDirection
deriving DecidableEq

/-- Exact square root of a nonnegative rational, when it exists. -/
def sqrtNatAux : Nat → Nat → Option Nat
  | _, 0 => none
  | n, fuel + 1 =>
    let i := fuel
    if i * i = n then some i else sqrtNatAux n fuel

/-- Exact natural square root, `none` for non-squares (bounded search,
structurally recursive so concrete runs reduce in the kernel). -/
def perfectSqrt (n : Nat) : Option Nat := sqrtNatAux n (n + 2)

def ratSqrt (q : ℚ) : Option ℚ :=
  if q < 0 then none
  else
    match perfectSqrt q.num.toNat, perfectSqrt q.den with
    | some a, some b => some ((a : ℚ) / (b : ℚ))
    | _, _ => none

/-- The Pearson numerator and squared denominator over the first
`n = min(len x, len y)` elements (`pearsonCorrelation` returns 0 when
`n < 2`, encoded as numerator 0 / denominator² 0). -/
def pearsonParts (x y : List ℚ) : ℚ × ℚ :=
  let n := Nat.min x.length y.length
  if n < 2 then (0, 0)
  else
    let xs := x.take n
    let ys := y.take n
    let meanX := xs.sum / (n : ℚ)
    let meanY := ys.sum / (n : ℚ)
    let dx := xs.map fun v => v - meanX
    let dy := ys.map fun v => v - meanY
    ((List.zipWith (· * ·) dx dy).sum,
     (dx.map fun v => v * v).sum * (dy.map fun v => v * v).sum)

/-- `|coefficient|²` of a computed pair (0 when the denominator is 0, where
the source returns coefficient 0). -/
def corrAbsSq (num den2 : ℚ) : ℚ := if den2 = 0 then 0 else num ^ 2 / den2

/-- One correlation record: strength bands `|c| < 0.3` / `< 0.7` and the
sign test `c > 0` decided via `corrAbsSq` and the numerator (exact
reformulations of the float comparisons). -/
def mkCorrelation (c1 c2 : String) (v1 v2 : List ℚ) : Correlation :=
  let p := pearsonParts v1 v2
  let absSq := corrAbsSq p.1 p.2
  { column1 := c1
    column2 := c2
    coeffNum := p.1
    coeffDen2 := p.2
    coefficient := if p.2 = 0 then some 0 else (ratSqrt p.2).map fun s => p.1 / s
    strength := if absSq < 9/100 then .weak else if absSq < 49/100 then .moderate else .strong
    direction := if (if p.2 = 0 then (0 : ℚ) else p.1) > 0 then .positive else .negative }

/-- All unordered pairs `(i, j)` with `i < j`, in nested-loop order. -/
def pairsAfter {α : Type} : List α → List (α × α)
  | [] => []
  | x :: xs => (xs.map fun y => (x, y)) ++ pairsAfter xs

/-- `calculateCorrelations`: per numeric-column pair, the independently
filtered native-number sequences; pairs where either has fewer than 2
values are skipped; only pairs with `|coefficient| > 0.1` are retained. -/
def calculateCorrelations (data : List Row) (numericCols : List ColumnInfo) : List Correlation :=
  ((pairsAfter numericCols).filterMap fun p =>
    let v1 := colNumbers data p.1.name
    let v2 := colNumbers data p.2.name
    if v1.length < 2 ∨ v2.length < 2 then none
    else some (mkCorrelation p.1.name p.2.name v1 v2)).filter
    fun corr => corrAbsSq corr.coeffNum corr.coeffDen2 > 1/100

inductive InsightType where
  | quality
  | correlation
  | anomaly
  | distribution
  | recommendation
deriving DecidableEq

inductive Severity where
  | low
  | medium
  | high
deriving DecidableEq

structure Insight where
  itype : InsightType
  title : String
  description : String
  severity : Severity
  column : Option String
deriving DecidableEq

def sevRank : Severity → Nat
  | .high => 3
  | .medium => 2
  | .low => 1

/-- Exact-rational rendering standing in for the float `toFixed(…)` calls
inside description strings (no claim inspects these strings). -/
def fmtQ (q : ℚ) : String := jsNumToString q

/-- The `col.nullPercentage > 20` test (`NaN > 20` is false). -/
def nullPctOver (p : Option ℚ) (t : ℚ) : Bool :=
  match p with
  | some q => t < q
  | none => false

/-- The anomaly test `max > mean + 3·stdDev || min < mean − 3·stdDev`,
decided exactly via squares (`stdDev = √variance ≥ 0`). -/
def anomalyCond (st : NumericStats) : Bool :=
  (st.max - st.mean > 0 ∧ (st.max - st.mean) ^ 2 > 9 * st.variance)
    ∨ (st.mean - st.min > 0 ∧ (st.mean - st.min) ^ 2 > 9 * st.variance)

/-- The skewness test `|skewness| > 1` with `skewness = m3 / stdDev³`
(`NaN` when `stdDev = 0`, failing the test), decided exactly. -/
def skewCond (st : NumericStats) : Bool :=
  0 < st.variance ∧ st.m3 ^ 2 > st.variance ^ 3

/-- `generateInsights`: the five independent rules in source order,
concatenated, then stably sorted by descending severity. -/
def generateInsights (columns : List ColumnInfo) (numericStats : List (String × NumericStats))
    (correlations : List Correlation) : List Insight :=
  let missing := columns.filterMap fun col =>
    if nullPctOver col.nullPercentage 20 then
      some { itype := .quality
             title := "High missing data in " ++ col.name
             description := "Column \"" ++ col.name ++ "\" has "
               ++ fmtQ ((col.nullPercentage).getD 0)
               ++ "% missing values, which may affect analysis quality."
             severity := if nullPctOver col.nullPercentage 50 then .high else .medium
             column := some col.name }
    else none
  let corrs := (correlations.filter fun c => corrAbsSq c.coeffNum c.coeffDen2 > 49/100).map
    fun c =>
      let dir := if c.direction = .positive then "positive" else "negative"
      let str := match c.strength with
        | .weak => "weak"
        | .moderate => "moderate"
        | .strong => "strong"
      { itype := .correlation
        title := "Strong " ++ dir ++ " correlation detected"
        description := c.column1 ++ " and " ++ c.column2 ++ " show a " ++ str ++ " " ++ dir
          ++ " correlation (r=" ++ fmtQ ((c.coefficient).getD 0) ++ ")."
        severity := .medium
        column := none }
  let anomalies := (jsOrderKeys numericStats).filterMap fun e =>
    if anomalyCond e.2 then
      some { itype := .anomaly
             title := "Potential outliers in " ++ e.1
             description := "Column \"" ++ e.1
               ++ "\" contains values that are more than 3 standard deviations from the mean, indicating possible outliers."
             severity := .low
             column := some e.1 }
    else none
  let skews := (jsOrderKeys numericStats).filterMap fun e =>
    if skewCond e.2 then
      some { itype := .distribution
             title := e.1 ++ " shows " ++ (if e.2.m3 > 0 then "right" else "left") ++ " skew"
             description := "The distribution of \"" ++ e.1 ++ "\" is "
               ++ (if e.2.m3 ^ 2 > 4 * e.2.variance ^ 3 then "highly" else "moderately")
               ++ " skewed (skewness: " ++ fmtQ e.2.m3 ++ ")."
             severity := .low
             column := some e.1 }
    else none
  let lowCard := columns.filterMap fun col =>
    if col.type = .categorical ∧ col.uniqueValues < 5 ∧ col.uniqueValues > 1 then
      some { itype := .recommendation
             title := col.name ++ " suitable for grouping analysis"
             description := "Column \"" ++ col.name ++ "\" has " ++ toString col.uniqueValues
               ++ " unique values, making it ideal for group-by operations and categorical analysis."
             severity := .low
             column := some col.name }
    else none
  sortJs (fun a b => sevRank b.severity ≤ sevRank a.severity)
    (missing ++ corrs ++ anomalies ++ skews ++ lowCard)

/-- `NaN`-poisoning sum of JS numbers. -/
def optSum : List (Option ℚ) → Option ℚ :=
  List.foldl (fun acc s =>
    match acc, s with
    | some a, some b => some (a + b)
    | _, _ => none) (some 0)

/-- `calculateQualityScore`: mean over columns of `100 − nullPercentage`
(`NaN` on a zero-column list or when any column's percentage is `NaN`). -/
def calculateQualityScore (columns : List ColumnInfo) : Option ℚ :=
  let scores := columns.map fun col => (col.nullPercentage).map fun p => 100 - p
  if columns.length = 0 then none
  else (optSum scores).map fun t => t / (columns.length : ℚ)

/-- `findDuplicateRows` seen-set recursion. -/
def dupCountGo (seen : List Row) : List Row → Nat
  | [] => 0
  | r :: rs =>
    if rowKey r ∈ seen then dupCountGo seen rs + 1
    else dupCountGo (rowKey r :: seen) rs

/-- `findDuplicateRows(dataset)`: rows whose serialization key already
occurred. -/
def findDuplicateRows (rows : List Row) : Nat := dupCountGo [] rows

/-- `generateRecommendations`: the six rules in priority order, capped at
6 strings. -/
def generateRecommendations (ds : Dataset) (columns : List ColumnInfo)
    (insights : List Insight) : List String :=
  let highMissing := columns.filter fun col => nullPctOver col.nullPercentage 20
  let r1 := if highMissing.length > 0 then
      ["Consider imputation or removal of columns with high missing data: "
        ++ String.intercalate ", " (highMissing.map fun c => c.name)]
    else []
  let lowCard := columns.filter fun col =>
    10 * col.uniqueValues < ds.rowCount ∧ col.uniqueValues > 1
  let r2 := if lowCard.length > 0 then
      ["Explore categorical analysis for low-cardinality columns: "
        ++ String.intercalate ", " ((lowCard.take 3).map fun c => c.name)]
    else []
  let r3 := if (columns.filter fun col => col.type = .numeric).length > 1 then
      ["Consider correlation analysis and feature selection for numeric columns"]
    else []
  let dups := findDuplicateRows ds.data
  let r4 := if dups > 0 then
      ["Remove " ++ toString dups ++ " duplicate rows to improve data quality"]
    else []
  let r5 := if ds.rowCount > 10000 then
      ["Consider data sampling or aggregation techniques for large datasets to improve processing speed"]
    else []
  let r6 := if (insights.filter fun i => i.itype = .anomaly).length > 0 then
      ["Investigate and potentially handle outliers in numeric columns"]
    else []
  (r1 ++ r2 ++ r3 ++ r4 ++ r5 ++ r6).take 6

structure AnalysisSummary where
  totalRows : Nat
  totalColumns : Nat
  numericColumns : Nat
  categoricalColumns : Nat
  missingValuePercentage : Option ℚ
  duplicateRows : Nat
deriving DecidableEq

structure AnalysisResult where
  summary : AnalysisSummary
  columns : List ColumnInfo
  numericStats : List (String × NumericStats)
  categoricalStats : List (String × CategoricalStats)
  correlations : List Correlation
  insights : List Insight
  qualityScore : Option ℚ
  recommendations : List String
deriving DecidableEq

/-- `analyzeData(dataset)`; `none` exactly when the original throws (which
`analyzeData_isSome` shows never happens). -/
def analyzeData (ds : Dataset) : Option AnalysisResult :=
  let columns := analyzeColumns ds
  let numericCols := columns.filter fun col => col.type = .numeric
  let categoricalCols := columns.filter fun col => col.type = .categorical
  match calculateNumericStats ds.data numericCols with
  | none => none
  | some numericStats =>
    let categoricalStats := calculateCategoricalStats ds.data categoricalCols
    let correlations := calculateCorrelations ds.data numericCols
    let insights := generateInsights columns numericStats correlations
    some
      { summary :=
          { totalRows := ds.rowCount
            totalColumns := ds.columns.length
            numericColumns := numericCols.length
            categoricalColumns := categoricalCols.length
            missingValuePercentage :=
              if columns.length = 0 then none
              else (optSum (columns.map fun col => col.nullPercentage)).map
                fun t => t / (columns.length : ℚ)
            duplicateRows := findDuplicateRows ds.data }
        columns
        numericStats
        categoricalStats
        correlations
        insights
        qualityScore := calculateQualityScore columns
        recommendations := generateRecommendations ds columns insights }

/-! ## Property predicates and concrete datasets used by the claims -/

/-- No remaining row has a null/undefined/empty cell in any listed
column. -/
def noMissingCells (rows : List Row) (cols : List String) : Bool :=
  rows.all fun r => cols.all fun c => !isMissingOpt (lookupJS r c)

/-- The cell of column `c` is either not a native number or lies within
`[lo, hi]`. -/
def cellWithin (c : String) (lo hi : ℚ) (r : Row) : Bool :=
  match lookupJS r c with
  | some (.num x) => decide (lo ≤ x ∧ x ≤ hi)
  | _ => true

/-- Every native-number cell of column `c` lies within `[lo, hi]`. -/
def colNumsWithin (rows : List Row) (c : String) (lo hi : ℚ) : Bool :=
  rows.all (cellWithin c lo hi)

/-- The quality score is a number in `[0, 100]` (false for `NaN`, as in the
JS comparisons). -/
def qualityInRange (p : Option ℚ) : Bool :=
  match p with
  | some q => decide (0 ≤ q ∧ q ≤ 100)
  | none => false

/-- Two rows agree as column-to-value mappings on the listed columns. -/
def rowsEqualAsMappings (r1 r2 : Row) (cols : List String) : Bool :=
  cols.all fun c => lookupJS r1 c = lookupJS r2 c

/-- Modelled from the spec: the classification rule claim C4 states for the
post-cleaning/report path — numeric when the fraction of non-null values
that are numeric (a native number, or a string that fully parses as a
number) exceeds 0.8; otherwise boolean when some value is a native boolean
or a string among the six boolean word forms; otherwise categorical. -/
def specReportClassify (values : List Value) : ColType :=
  let numericish := values.filter isNumericJs
  if (numericish.length : ℚ) / (values.length : ℚ) > 4/5 then .numeric
  else if values.any isBooleanLike then .boolean
  else .categorical

/-- The example dataset of claim C7 (spec §8). -/
def dataC7 : List Row :=
  [[("age", .num 25), ("city", .str "NY")],
   [("age", .num 30), ("city", .str "NY")],
   [("age", .null), ("city", .str "LA")],
   [("age", .num 30), ("city", .str "NY")]]

/-- The cleaned rows `cleanDataset` produces on `dataC7`. -/
def cleanC7 : List Row :=
  [[("age", .num 25), ("city", .str "NY")],
   [("age", .num 30), ("city", .str "NY")],
   [("age", .num 30), ("city", .str "LA")]]

/-- The cleaned C7 data repackaged as the dataset `analyze` receives. -/
def dsC7 : Dataset := ⟨cleanC7, ["age", "city"], 3⟩

/-- Claim C8's dataset: `x = [1,2,3]`, `y = [9,6,3]`. -/
def dsC8 : Dataset :=
  ⟨[[("x", .num 1), ("y", .num 9)],
    [("x", .num 2), ("y", .num 6)],
    [("x", .num 3), ("y", .num 3)]], ["x", "y"], 3⟩

/-- A one-column zero-row dataset (claim C9's degenerate case). -/
def dsC9 : Dataset := ⟨[], ["a"], 0⟩

/-- A one-row one-column dataset, used to witness the quality-score range
theorem. -/
def dsW9 : Dataset := ⟨[[("a", .num 1)]], ["a"], 1⟩

/-- A column whose non-null values are all numeric strings (claim C4). -/
def dsC4 : Dataset :=
  ⟨[[("v", .str "1")], [("v", .str "2")], [("v", .str "3")],
    [("v", .str "4")], [("v", .str "5")]], ["v"], 5⟩

/-- Claim C2's dataset: imputing the null `b` with the mode `"X"` makes the
two rows identical, which only a second cleaning run deduplicates. -/
def dataC2 : List Row :=
  [[("a", .num 1), ("b", .str "X")],
   [("a", .num 1), ("b", .null)]]

/-- The output of the first cleaning run on `dataC2`. -/
def cleanC2 : List Row :=
  [[("a", .num 1), ("b", .str "X")],
   [("a", .num 1), ("b", .str "X")]]

/-- Claim C5's dataset: ten native numbers 0..9 and the numeric string
`"100"` in an 11-value column. -/
def dataC5 : List Row :=
  [[("a", .num 0)], [("a", .num 1)], [("a", .num 2)], [("a", .num 3)],
   [("a", .num 4)], [("a", .num 5)], [("a", .num 6)], [("a", .num 7)],
   [("a", .num 8)], [("a", .num 9)], [("a", .str "100")]]

/-- The final output of `cleanDataset` on `dataC5`: the string cell was
untouched by capping (it is not a native number there) and then coerced to
the number 100 by the type-standardization pass, escaping the fences. -/
def cleanC5 : List Row :=
  [[("a", .num 0)], [("a", .num 1)], [("a", .num 2)], [("a", .num 3)],
   [("a", .num 4)], [("a", .num 5)], [("a", .num 6)], [("a", .num 7)],
   [("a", .num 8)], [("a", .num 9)], [("a", .num 100)]]

/-- The column record the cleaning analysis computes for `dataC5`'s column
`a`. -/
def infoC5 : ColCleanInfo :=
  { type := .numeric
    values := [.num 0, .num 1, .num 2, .num 3, .num 4, .num 5, .num 6,
               .num 7, .num 8, .num 9, .str "100"]
    median := some 5
    mode := none
    q1 := some 2
    q3 := some 8 }

/-- A small dataset with one null cell, used to witness the imputation
completeness theorem. -/
def dataW3 : List Row :=
  [[("a", .null), ("b", .str "k")],
   [("a", .num 1), ("b", .str "k")],
   [("a", .num 2), ("b", .str "m")]]

/-- The cleaned rows `cleanDataset` produces on `dataW3` (the null imputed
with the column median 2). -/
def cleanW3 : List Row :=
  [[("a", .num 2), ("b", .str "k")],
   [("a", .num 1), ("b", .str "k")],
   [("a", .num 2), ("b", .str "m")]]

/-- Claim C6: a row with keys inserted in order `age`, `city`. -/
def rowC6a : Row := [("age", .num 25), ("city", .str "NY")]

/-- Claim C6: the same column-to-value mapping with the keys inserted in
the opposite order. -/
def rowC6b : Row := [("city", .str "NY"), ("age", .num 25)]

/-- Claim C6's rows: equal as column-to-value mappings, but with the two
keys inserted in opposite orders. -/
def dataC6 : List Row := [rowC6a, rowC6b]

/-! ## Helper lemmas -/

theorem lookupJS_setKey (r : Row) (c d : String) (v : Value) :
    lookupJS (setKey r c v) d = if c = d then some v else lookupJS r d := by
  induction r with
  | nil =>
    simp only [setKey, lookupJS]
  | cons e rest ih =>
    obtain ⟨k, w⟩ := e
    by_cases hk : k = c
    · subst hk
      simp only [setKey, if_pos rfl, lookupJS]
      by_cases hd : k = d
      · simp [hd]
      · simp [hd]
    · simp only [setKey, if_neg hk, lookupJS, ih]
      by_cases hd : k = d
      · subst hd
        simp only [if_pos rfl]
        rcases eq_or_ne c k with h | h
        · exact absurd h.symm hk
        · simp [if_neg h]
      · simp [if_neg hd]

theorem lookupJS_setKey_self (r : Row) (c : String) (v : Value) :
    lookupJS (setKey r c v) c = some v := by
  simp [lookupJS_setKey]

theorem lookupJS_setKey_ne (r : Row) {c d : String} (h : c ≠ d) (v : Value) :
    lookupJS (setKey r c v) d = lookupJS r d := by
  simp [lookupJS_setKey, h]

theorem rowHasValue_setKey (r : Row) (c : String) {v : Value}
    (hv : isMissingVal v = false) : rowHasValue (setKey r c v) = true := by
  induction r with
  | nil =>
    simp [setKey, rowHasValue, rowValues, hv]
  | cons e rest ih =>
    obtain ⟨k, w⟩ := e
    by_cases hk : k = c
    · subst hk
      simp [setKey, rowHasValue, rowValues, hv]
    · simp only [setKey, if_neg hk]
      simp only [rowHasValue, rowValues, List.map_cons, List.any_cons] at ih ⊢
      rw [ih]
      simp

theorem rowHasValue_of_lookup {r : Row} {c : String} {v : Value}
    (h : lookupJS r c = some v) (hv : isMissingVal v = false) :
    rowHasValue r = true := by
  induction r with
  | nil => simp [lookupJS] at h
  | cons e rest ih =>
    obtain ⟨k, w⟩ := e
    simp only [lookupJS] at h
    by_cases hk : k = c
    · rw [if_pos hk] at h
      injection h with h
      subst h
      simp [rowHasValue, rowValues, hv]
    · rw [if_neg hk] at h
      have := ih h
      simp only [rowHasValue, rowValues, List.map_cons, List.any_cons] at this ⊢
      rw [this]
      simp

theorem imputeValue_not_missing (info : ColCleanInfo) :
    isMissingVal (imputeValue info) = false := by
  unfold imputeValue
  cases hty : info.type with
  | numeric => rfl
  | boolean => rfl
  | categorical =>
    cases hm : info.mode with
    | none => simp [isMissingVal]
    | some m =>
      by_cases hme : m = ""
      · simp [hme, isMissingVal]
      · simp [hme, isMissingVal]

theorem imputeCols_pres (A : List (String × ColCleanInfo)) (cols : List String)
    {r : Row} {c : String} (h : isMissingOpt (lookupJS r c) = false) :
    isMissingOpt (lookupJS (imputeCols A cols r).1 c) = false := by
  induction cols generalizing r with
  | nil => exact h
  | cons c0 cs ih =>
    simp only [imputeCols]
    by_cases h0 : isMissingOpt (lookupJS r c0) = true
    · have hne : c0 ≠ c := by
        intro he
        subst he
        rw [h0] at h
        exact Bool.true_eq_false.mp h
      rw [if_pos h0]
      exact ih (by rw [lookupJS_setKey_ne _ hne]; exact h)
    · rw [if_neg h0]
      exact ih h

theorem imputeCols_covers (A : List (String × ColCleanInfo)) (cols : List String)
    {r : Row} {c : String} (hc : c ∈ cols) :
    isMissingOpt (lookupJS (imputeCols A cols r).1 c) = false := by
  induction cols generalizing r with
  | nil => cases hc
  | cons c0 cs ih =>
    simp only [imputeCols]
    rcases List.mem_cons.mp hc with he | hmem
    · subst he
      by_cases h0 : isMissingOpt (lookupJS r c) = true
      · rw [if_pos h0]
        exact imputeCols_pres A cs
          (by rw [lookupJS_setKey_self]; exact imputeValue_not_missing _)
      · rw [if_neg h0]
        exact imputeCols_pres A cs (Bool.not_eq_true _ ▸ h0)
    · by_cases h0 : isMissingOpt (lookupJS r c0) = true
      · rw [if_pos h0]
        exact ih hmem
      · rw [if_neg h0]
        exact ih hmem

theorem imputeCols_hasValue (A : List (String × ColCleanInfo)) (cols : List String)
    {r : Row} (h : rowHasValue r = true) :
    rowHasValue (imputeCols A cols r).1 = true := by
  induction cols generalizing r with
  | nil => exact h
  | cons c0 cs ih =>
    simp only [imputeCols]
    by_cases h0 : isMissingOpt (lookupJS r c0) = true
    · rw [if_pos h0]
      exact ih (rowHasValue_setKey _ _ (imputeValue_not_missing _))
    · rw [if_neg h0]
      exact ih h

theorem imputeCols_noop (A : List (String × ColCleanInfo)) (cols : List String)
    {r : Row} (h : ∀ c ∈ cols, isMissingOpt (lookupJS r c) = false) :
    imputeCols A cols r = (r, 0) := by
  induction cols with
  | nil => rfl
  | cons c0 cs ih =>
    simp only [imputeCols]
    rw [if_neg (by rw [h c0 (List.mem_cons_self _ _)]; exact Bool.false_ne_true)]
    exact ih fun c hc => h c (List.mem_cons_of_mem _ hc)

theorem imputeAll_mem (A : List (String × ColCleanInfo)) (cols : List String)
    {rows : List Row} {r' : Row} (h : r' ∈ (imputeAll A cols rows).1) :
    ∃ r ∈ rows, r' = (imputeCols A cols r).1 := by
  induction rows with
  | nil => cases h
  | cons r rs ih =>
    simp only [imputeAll, List.mem_cons] at h
    rcases h with he | hmem
    · exact ⟨r, List.mem_cons_self _ _, he⟩
    · obtain ⟨r0, hr0, he0⟩ := ih hmem
      exact ⟨r0, List.mem_cons_of_mem _ hr0, he0⟩

theorem imputeAll_noop (A : List (String × ColCleanInfo)) (cols : List String)
    {rows : List Row} (h : ∀ r ∈ rows, ∀ c ∈ cols, isMissingOpt (lookupJS r c) = false) :
    imputeAll A cols rows = (rows, 0) := by
  induction rows with
  | nil => rfl
  | cons r rs ih =>
    simp only [imputeAll]
    rw [imputeCols_noop A cols (h r (List.mem_cons_self _ _)),
        ih fun r0 hr0 => h r0 (List.mem_cons_of_mem _ hr0)]
    rfl

theorem capFold_mem (c : String) (lo hi : ℚ) (rows : List Row) (r' : Row)
    (h : r' ∈ (rows.foldr (fun row acc =>
      match lookupJS row c with
      | some (.num x) =>
        if x < lo ∨ x > hi then
          (setKey row c (.num (if x < lo then lo else hi)) :: acc.1, acc.2 + 1)
        else (row :: acc.1, acc.2)
      | _ => (row :: acc.1, acc.2)) ([], 0)).1) :
    ∃ r ∈ rows, r' = r ∨ ∃ x : ℚ, r' = setKey r c (.num x) := by
  induction rows with
  | nil => cases h
  | cons r rs ih =>
    rw [List.foldr_cons] at h
    have step : ∀ hyp : r' ∈ r :: (rs.foldr (fun row acc =>
        match lookupJS row c with
        | some (.num x) =>
          if x < lo ∨ x > hi then
            (setKey row c (.num (if x < lo then lo else hi)) :: acc.1, acc.2 + 1)
          else (row :: acc.1, acc.2)
        | _ => (row :: acc.1, acc.2)) ([], 0)).1,
        ∃ r0 ∈ r :: rs, r' = r0 ∨ ∃ x : ℚ, r' = setKey r0 c (.num x) := by
      intro hyp
      rcases List.mem_cons.mp hyp with he | hmem
      · exact ⟨r, List.mem_cons_self _ _, Or.inl he⟩
      · obtain ⟨r0, hr0, hsh⟩ := ih hmem
        exact ⟨r0, List.mem_cons_of_mem _ hr0, hsh⟩
    have stepSet : ∀ (y : ℚ),
        ∀ hyp : r' ∈ setKey r c (.num y) :: (rs.foldr (fun row acc =>
        match lookupJS row c with
        | some (.num x) =>
          if x < lo ∨ x > hi then
            (setKey row c (.num (if x < lo then lo else hi)) :: acc.1, acc.2 + 1)
          else (row :: acc.1, acc.2)
        | _ => (row :: acc.1, acc.2)) ([], 0)).1,
        ∃ r0 ∈ r :: rs, r' = r0 ∨ ∃ x : ℚ, r' = setKey r0 c (.num x) := by
      intro y hyp
      rcases List.mem_cons.mp hyp with he | hmem
      · exact ⟨r, List.mem_cons_self _ _, Or.inr ⟨_, he⟩⟩
      · obtain ⟨r0, hr0, hsh⟩ := ih hmem
        exact ⟨r0, List.mem_cons_of_mem _ hr0, hsh⟩
    rcases hl : lookupJS r c with _ | v
    · rw [hl] at h
      exact step h
    · cases v with
      | num x =>
        rw [hl] at h
        by_cases hout : x < lo ∨ x > hi
        · exact stepSet _ (by
            have : r' ∈ (setKey r c (.num (if x < lo then lo else hi)) :: (rs.foldr (fun row acc =>
              match lookupJS row c with
              | some (.num x) =>
                if x < lo ∨ x > hi then
                  (setKey row c (.num (if x < lo then lo else hi)) :: acc.1, acc.2 + 1)
                else (row :: acc.1, acc.2)
              | _ => (row :: acc.1, acc.2)) ([], 0)).1) := by
              simpa [hout] using h
            exact this)
        · exact step (by simpa [hout] using h)
      | bool b =>
        rw [hl] at h
        exact step h
      | str s =>
        rw [hl] at h
        exact step h
      | null =>
        rw [hl] at h
        exact step h

theorem capColumn_mem {info : ColCleanInfo} {c : String} {rows : List Row} {r' : Row}
    (h : r' ∈ (capColumn info c rows).1) :
    ∃ r ∈ rows, r' = r ∨ ∃ x : ℚ, r' = setKey r c (.num x) := by
  rw [capColumn] at h
  by_cases hc : info.type = .numeric ∧ 10 < info.values.length
  · rw [if_pos hc] at h
    exact capFold_mem c _ _ rows r' h
  · rw [if_neg hc] at h
    exact ⟨r', h, Or.inl rfl⟩

theorem cellWithin_setKey_same (r : Row) (c : String) (lo hi y : ℚ)
    (hy : lo ≤ y ∧ y ≤ hi) : cellWithin c lo hi (setKey r c (.num y)) = true := by
  unfold cellWithin
  rw [lookupJS_setKey_self]
  exact decide_eq_true hy

theorem cellWithin_setKey_ne (r : Row) {c' c : String} (hne : c' ≠ c) (lo hi : ℚ) (v : Value)
    (h : cellWithin c lo hi r = true) : cellWithin c lo hi (setKey r c' v) = true := by
  unfold cellWithin at h ⊢
  rw [lookupJS_setKey_ne _ hne]
  exact h

theorem colNumsWithin_cons (r : Row) (rs : List Row) (c : String) (lo hi : ℚ) :
    colNumsWithin (r :: rs) c lo hi = (cellWithin c lo hi r && colNumsWithin rs c lo hi) :=
  rfl

theorem capFold_within (c : String) (lo hi : ℚ) (hlohi : lo ≤ hi) (rows : List Row) :
    colNumsWithin ((rows.foldr (fun row acc =>
      match lookupJS row c with
      | some (.num x) =>
        if x < lo ∨ x > hi then
          (setKey row c (.num (if x < lo then lo else hi)) :: acc.1, acc.2 + 1)
        else (row :: acc.1, acc.2)
      | _ => (row :: acc.1, acc.2)) ([], 0)).1) c lo hi = true := by
  induction rows with
  | nil => rfl
  | cons r rs ih =>
    rw [List.foldr_cons]
    split
    next x heq =>
      split
      next hout =>
        show colNumsWithin (_ :: _) c lo hi = true
        rw [colNumsWithin_cons, ih, Bool.and_true]
        refine cellWithin_setKey_same _ _ _ _ _ ?_
        by_cases hxlo : x < lo
        · rw [if_pos hxlo]
          exact ⟨le_refl _, hlohi⟩
        · rw [if_neg hxlo]
          exact ⟨hlohi, le_refl _⟩
      next hout =>
        show colNumsWithin (_ :: _) c lo hi = true
        rw [colNumsWithin_cons, ih, Bool.and_true]
        unfold cellWithin
        rw [heq]
        have h1 : ¬ x < lo := fun hh => hout (Or.inl hh)
        have h2 : ¬ x > hi := fun hh => hout (Or.inr hh)
        exact decide_eq_true ⟨not_lt.mp h1, not_lt.mp h2⟩
    next v heq =>
      show colNumsWithin (_ :: _) c lo hi = true
      rw [colNumsWithin_cons, ih, Bool.and_true]
      unfold cellWithin
      rcases hl : lookupJS r c with _ | w
      · rfl
      · cases w with
        | num x => exact absurd hl (heq x)
        | bool b => rfl
        | str s => rfl
        | null => rfl

theorem colNumsWithin_iff_mem (rows : List Row) (c : String) (lo hi : ℚ) :
    colNumsWithin rows c lo hi = true ↔ ∀ r ∈ rows, cellWithin c lo hi r = true := by
  simp [colNumsWithin, List.all_eq_true]

theorem capColumn_within {info : ColCleanInfo} {c : String} (rows : List Row)
    (hty : info.type = .numeric) (hlen : 10 < info.values.length)
    (hlohi : (iqrBounds info).1 ≤ (iqrBounds info).2) :
    colNumsWithin (capColumn info c rows).1 c (iqrBounds info).1 (iqrBounds info).2 = true := by
  rw [capColumn, if_pos ⟨hty, hlen⟩]
  exact capFold_within c _ _ hlohi rows

theorem capColumn_keep {info' : ColCleanInfo} {c' c : String} (hne : c' ≠ c)
    {rows : List Row} {lo hi : ℚ} (h : colNumsWithin rows c lo hi = true) :
    colNumsWithin (capColumn info' c' rows).1 c lo hi = true := by
  rw [colNumsWithin_iff_mem] at h ⊢
  intro r' hr'
  obtain ⟨r, hr, hsh⟩ := capColumn_mem hr'
  rcases hsh with he | ⟨x, he⟩
  · exact he ▸ h r hr
  · exact he ▸ cellWithin_setKey_ne r hne lo hi _ (h r hr)

theorem capColumn_pres_nonmissing {info : ColCleanInfo} {c d : String} {rows : List Row}
    (h : ∀ r ∈ rows, isMissingOpt (lookupJS r d) = false) :
    ∀ r' ∈ (capColumn info c rows).1, isMissingOpt (lookupJS r' d) = false := by
  intro r' hr'
  obtain ⟨r, hr, hsh⟩ := capColumn_mem hr'
  rcases hsh with he | ⟨x, he⟩
  · exact he ▸ h r hr
  · subst he
    by_cases hcd : c = d
    · rw [hcd, lookupJS_setKey_self]
      rfl
    · rw [lookupJS_setKey_ne _ hcd]
      exact h r hr

theorem capColumn_pres_hasValue {info : ColCleanInfo} {c : String} {rows : List Row}
    (h : ∀ r ∈ rows, rowHasValue r = true) :
    ∀ r' ∈ (capColumn info c rows).1, rowHasValue r' = true := by
  intro r' hr'
  obtain ⟨r, hr, hsh⟩ := capColumn_mem hr'
  rcases hsh with he | ⟨x, he⟩
  · exact he ▸ h r hr
  · exact he ▸ rowHasValue_setKey r c rfl

theorem capAll_keep {A : List (String × ColCleanInfo)} {c : String} {info : ColCleanInfo}
    (hinfo : getInfo A c = info) (hty : info.type = .numeric)
    (hlen : 10 < info.values.length)
    (hlohi : (iqrBounds info).1 ≤ (iqrBounds info).2) :
    ∀ (cols : List String) (rows : List Row),
      colNumsWithin rows c (iqrBounds info).1 (iqrBounds info).2 = true →
      colNumsWithin (capAll A cols rows).1 c (iqrBounds info).1 (iqrBounds info).2 = true := by
  intro cols
  induction cols with
  | nil => intro rows h; exact h
  | cons c0 cs ih =>
    intro rows h
    simp only [capAll]
    by_cases hc0 : c0 = c
    · subst hc0
      rw [hinfo]
      exact ih _ (capColumn_within _ hty hlen hlohi)
    · exact ih _ (capColumn_keep hc0 h)

theorem capAll_within {A : List (String × ColCleanInfo)} {c : String} {info : ColCleanInfo}
    (hinfo : getInfo A c = info) (hty : info.type = .numeric)
    (hlen : 10 < info.values.length)
    (hlohi : (iqrBounds info).1 ≤ (iqrBounds info).2) :
    ∀ (cols : List String), c ∈ cols → ∀ rows : List Row,
      colNumsWithin (capAll A cols rows).1 c (iqrBounds info).1 (iqrBounds info).2 = true := by
  intro cols
  induction cols with
  | nil => intro hc; cases hc
  | cons c0 cs ih =>
    intro hc rows
    simp only [capAll]
    rcases List.mem_cons.mp hc with he | hmem
    · subst he
      rw [hinfo]
      exact capAll_keep hinfo hty hlen hlohi _ _ (capColumn_within _ hty hlen hlohi)
    · exact ih hmem _

theorem capAll_pres_nonmissing {A : List (String × ColCleanInfo)} {d : String} :
    ∀ (cols : List String) (rows : List Row),
      (∀ r ∈ rows, isMissingOpt (lookupJS r d) = false) →
      ∀ r' ∈ (capAll A cols rows).1, isMissingOpt (lookupJS r' d) = false := by
  intro cols
  induction cols with
  | nil => intro rows h; exact h
  | cons c0 cs ih =>
    intro rows h
    simp only [capAll]
    exact ih _ (capColumn_pres_nonmissing h)

theorem capAll_pres_hasValue {A : List (String × ColCleanInfo)} :
    ∀ (cols : List String) (rows : List Row),
      (∀ r ∈ rows, rowHasValue r = true) →
      ∀ r' ∈ (capAll A cols rows).1, rowHasValue r' = true := by
  intro cols
  induction cols with
  | nil => intro rows h; exact h
  | cons c0 cs ih =>
    intro rows h
    simp only [capAll]
    exact ih _ (capColumn_pres_hasValue h)

theorem coerceCols_cons (A : List (String × ColCleanInfo)) (c : String) (cs : List String)
    (r : Row) :
    ∃ r1, (coerceCols A (c :: cs) r).1 = (coerceCols A cs r1).1
      ∧ (r1 = r ∨ ∃ w, isMissingVal w = false ∧ r1 = setKey r c w) := by
  simp only [coerceCols]
  by_cases h1 : (getInfo A c).type = .numeric ∧ ¬ isNumValOpt (lookupJS r c)
  · rw [if_pos h1]
    rcases hj : jsToNumberOpt (lookupJS r c) with _ | q
    · exact ⟨r, rfl, Or.inl rfl⟩
    · exact ⟨setKey r c (.num q), rfl, Or.inr ⟨.num q, rfl, rfl⟩⟩
  · rw [if_neg h1]
    by_cases h2 : (getInfo A c).type = .boolean ∧ ¬ isBoolValOpt (lookupJS r c)
    · rw [if_pos h2]
      by_cases h3 : ["true", "1", "yes", "y"].contains
          (toLowerAscii (jsStringOpt (lookupJS r c))) = true
      · rw [if_pos h3]
        exact ⟨setKey r c (.bool true), rfl, Or.inr ⟨.bool true, rfl, rfl⟩⟩
      · rw [if_neg h3]
        by_cases h4 : ["false", "0", "no", "n"].contains
            (toLowerAscii (jsStringOpt (lookupJS r c))) = true
        · rw [if_pos h4]
          exact ⟨setKey r c (.bool false), rfl, Or.inr ⟨.bool false, rfl, rfl⟩⟩
        · rw [if_neg h4]
          exact ⟨r, rfl, Or.inl rfl⟩
    · rw [if_neg h2]
      exact ⟨r, rfl, Or.inl rfl⟩

theorem coerceCols_pres_nonmissing (A : List (String × ColCleanInfo)) :
    ∀ (cols : List String) {r : Row} {d : String},
      isMissingOpt (lookupJS r d) = false →
      isMissingOpt (lookupJS (coerceCols A cols r).1 d) = false := by
  intro cols
  induction cols with
  | nil => intro r d h; exact h
  | cons c cs ih =>
    intro r d h
    obtain ⟨r1, he, hsh⟩ := coerceCols_cons A c cs r
    rw [he]
    rcases hsh with rfl | ⟨w, hw, rfl⟩
    · exact ih h
    · refine ih ?_
      by_cases hcd : c = d
      · rw [hcd, lookupJS_setKey_self]
        exact hw
      · rw [lookupJS_setKey_ne _ hcd]
        exact h

theorem coerceCols_pres_hasValue (A : List (String × ColCleanInfo)) :
    ∀ (cols : List String) {r : Row},
      rowHasValue r = true → rowHasValue (coerceCols A cols r).1 = true := by
  intro cols
  induction cols with
  | nil => intro r h; exact h
  | cons c cs ih =>
    intro r h
    obtain ⟨r1, he, hsh⟩ := coerceCols_cons A c cs r
    rw [he]
    rcases hsh with rfl | ⟨w, hw, rfl⟩
    · exact ih h
    · exact ih (rowHasValue_setKey r c hw)

theorem coerceAll_mem (A : List (String × ColCleanInfo)) (cols : List String) :
    ∀ {rows : List Row} {r' : Row}, r' ∈ (coerceAll A cols rows).1 →
      ∃ r ∈ rows, r' = (coerceCols A cols r).1 := by
  intro rows
  induction rows with
  | nil => intro r' h; cases h
  | cons r rs ih =>
    intro r' h
    simp only [coerceAll, List.mem_cons] at h
    rcases h with he | hmem
    · exact ⟨r, List.mem_cons_self _ _, he⟩
    · obtain ⟨r0, hr0, he0⟩ := ih hmem
      exact ⟨r0, List.mem_cons_of_mem _ hr0, he0⟩

theorem dedupGo_sublist (rows : List Row) : ∀ seen : List Row, (dedupGo seen rows).Sublist rows := by
  induction rows with
  | nil => intro seen; exact List.Sublist.refl _
  | cons r rs ih =>
    intro seen
    simp only [dedupGo]
    by_cases h : rowKey r ∈ seen
    · rw [if_pos h]
      exact (ih seen).cons r
    · rw [if_neg h]
      exact (ih _).cons₂ r

theorem mem_of_mem_dedupGo {rows : List Row} {seen : List Row} {r : Row}
    (h : r ∈ dedupGo seen rows) : r ∈ rows :=
  (dedupGo_sublist rows seen).subset h

theorem dedupGo_length_add (rows : List Row) : ∀ seen : List Row,
    (dedupGo seen rows).length + dupCountGo seen rows = rows.length := by
  induction rows with
  | nil => intro seen; rfl
  | cons r rs ih =>
    intro seen
    simp only [dedupGo, dupCountGo]
    by_cases h : rowKey r ∈ seen
    · rw [if_pos h, if_pos h]
      have := ih seen
      simp only [List.length_cons]
      omega
    · rw [if_neg h, if_neg h]
      have := ih (rowKey r :: seen)
      simp only [List.length_cons]
      omega

theorem mem_sparseFilter {n : Nat} {rows : List Row} {r : Row}
    (h : r ∈ sparseFilter n rows) : r ∈ rows :=
  List.mem_of_mem_filter h

theorem noMissingCells_iff (rows : List Row) (cols : List String) :
    noMissingCells rows cols = true ↔
      ∀ r ∈ rows, ∀ c ∈ cols, isMissingOpt (lookupJS r c) = false := by
  simp [noMissingCells, List.all_eq_true]

theorem cleanDataset_destruct {data : List Row} {cols : List String}
    {pr : List Row × CleaningRep} (h : cleanDataset data cols = some pr) :
    ∃ A, analyzeColumnsForCleaning (dedupRows (removeEmptyRows data)) cols = some A
      ∧ pr = cleanRest data cols A := by
  rw [cleanDataset] at h
  rcases ho : analyzeColumnsForCleaning (dedupRows (removeEmptyRows data)) cols with _ | A
  · rw [ho] at h
    cases h
  · rw [ho] at h
    simp only [Option.map_some'] at h
    exact ⟨A, rfl, (Option.some_inj.mp h).symm⟩

theorem cleanRest_fst (data : List Row) (cols : List String)
    (A : List (String × ColCleanInfo)) :
    (cleanRest data cols A).1 = sparseFilter cols.length
      (coerceAll A cols
        (capAll A cols
          (imputeAll A cols (dedupRows (removeEmptyRows data))).1).1).1 := rfl

theorem cleanRest_handled (data : List Row) (cols : List String)
    (A : List (String × ColCleanInfo)) :
    (cleanRest data cols A).2.handledMissingValues =
      (imputeAll A cols (dedupRows (removeEmptyRows data))).2 := rfl

theorem clean_no_missing {data : List Row} {cols : List String} {out : List Row}
    {rep : CleaningRep} (h : cleanDataset data cols = some (out, rep)) :
    noMissingCells out cols = true := by
  obtain ⟨A, hA, hpr⟩ := cleanDataset_destruct h
  have hout : out = (cleanRest data cols A).1 := congrArg Prod.fst hpr
  rw [cleanRest_fst] at hout
  rw [noMissingCells_iff]
  intro r hr c hc
  rw [hout] at hr
  have hr6 := mem_sparseFilter hr
  obtain ⟨r5, hr5, he5⟩ := coerceAll_mem A cols hr6
  subst he5
  refine coerceCols_pres_nonmissing A cols ?_
  refine capAll_pres_nonmissing cols _ ?_ r5 hr5
  intro r4 hr4
  obtain ⟨r2, _, he2⟩ := imputeAll_mem A cols hr4
  subst he2
  exact imputeCols_covers A cols hc

theorem clean_rows_have_value {data : List Row} {cols : List String} {out : List Row}
    {rep : CleaningRep} (h : cleanDataset data cols = some (out, rep)) :
    ∀ r ∈ out, rowHasValue r = true := by
  obtain ⟨A, hA, hpr⟩ := cleanDataset_destruct h
  have hout : out = (cleanRest data cols A).1 := congrArg Prod.fst hpr
  rw [cleanRest_fst] at hout
  intro r hr
  rw [hout] at hr
  have hr6 := mem_sparseFilter hr
  obtain ⟨r5, hr5, he5⟩ := coerceAll_mem A cols hr6
  subst he5
  refine coerceCols_pres_hasValue A cols ?_
  refine capAll_pres_hasValue cols _ ?_ r5 hr5
  intro r4 hr4
  obtain ⟨r2, hr2, he2⟩ := imputeAll_mem A cols hr4
  subst he2
  refine imputeCols_hasValue A cols ?_
  have hr1 : r2 ∈ removeEmptyRows data := mem_of_mem_dedupGo hr2
  exact List.of_mem_filter hr1

/-! ## Claim theorems -/

/-- C1: the claim says `clean` never raises for empty input (returning a
zero-count report) and never crashes on an all-null column.  The code
returns the zero report only for an empty column list; with a non-empty
column list and zero rows, or with an all-null column, the mode `reduce`
in `analyzeColumnsForCleaning` runs with no initial value over an empty
frequency table and throws a `TypeError` (modelled as `none`). -/
theorem C1_clean_crash_on_empty :
    cleanDataset [] [] = some ([], ⟨0, 0, 0, 0, 0, 0, []⟩)
    ∧ cleanDataset [] ["a"] = none
    ∧ cleanDataset [[("a", .num 1), ("b", .null)]] ["a", "b"] = none :=
  ⟨by with_unfolding_all rfl, by with_unfolding_all rfl, by with_unfolding_all rfl⟩

/-- C3: after a completed `clean`, no remaining row has a
null/undefined/empty-string value in any listed column (every column is
classified numeric, categorical, or boolean on the cleaning path, and the
imputed values — column median, column mode, `false` — are never
null/empty). -/
theorem C3_imputation_completeness (data : List Row) (cols : List String)
    (out : List Row) (rep : CleaningRep)
    (h : cleanDataset data cols = some (out, rep)) :
    noMissingCells out cols = true :=
  clean_no_missing h

/-- Witness for C3 at a concrete dataset with a null numeric cell. -/
theorem C3_imputation_completeness_witness : noMissingCells cleanW3 ["a", "b"] = true :=
  C3_imputation_completeness dataW3 ["a", "b"] cleanW3
    ⟨3, 3, 0, 1, 0, 0, ["Filled 1 missing values using statistical imputation"]⟩
    (by with_unfolding_all rfl)

/-- C2 counterexample: on `dataC2` the first `clean` imputes the null `b`
cell with the column mode `"X"`, creating two identical rows after the
dedup pass already ran; a second `clean` on the output removes one of them
and changes the row count, so `clean` is not idempotent. -/
theorem C2_not_idempotent_cex :
    cleanDataset dataC2 ["a", "b"] = some (cleanC2,
      ⟨2, 2, 0, 1, 0, 0, ["Filled 1 missing values using statistical imputation"]⟩)
    ∧ cleanDataset cleanC2 ["a", "b"] = some ([[("a", .num 1), ("b", .str "X")]],
      ⟨2, 1, 1, 0, 0, 0, ["Removed 1 duplicate rows"]⟩)
    ∧ cleanC2.length ≠ ([[("a", Value.num 1), ("b", Value.str "X")]] : List Row).length :=
  ⟨by with_unfolding_all rfl, by with_unfolding_all rfl, by decide⟩

/-- C2 (amended): a second `clean` on the output of a completed `clean`
removes no completely-empty rows and imputes no missing values; it is not
a no-op in general, because imputation can create duplicate rows that only
the second run removes, changing the row count. -/
theorem C2_second_clean_no_empty_no_impute (data : List Row) (cols : List String)
    (out out2 : List Row) (rep rep2 : CleaningRep)
    (h1 : cleanDataset data cols = some (out, rep))
    (h2 : cleanDataset out cols = some (out2, rep2)) :
    removeEmptyRows out = out ∧ rep2.handledMissingValues = 0 := by
  constructor
  · exact List.filter_eq_self.mpr (clean_rows_have_value h1)
  · obtain ⟨A2, hA2, hpr2⟩ := cleanDataset_destruct h2
    have hrep : rep2 = (cleanRest out cols A2).2 := congrArg Prod.snd hpr2
    rw [hrep, cleanRest_handled]
    have hnm := (noMissingCells_iff out cols).mp (clean_no_missing h1)
    have hnoop : imputeAll A2 cols (dedupRows (removeEmptyRows out)) =
        (dedupRows (removeEmptyRows out), 0) := by
      apply imputeAll_noop
      intro r hr c hc
      exact hnm r (List.mem_of_mem_filter (mem_of_mem_dedupGo hr)) c hc
    rw [hnoop]

/-- Witness for the amended C2 at `dataC2`. -/
theorem C2_second_clean_no_empty_no_impute_witness :
    removeEmptyRows cleanC2 = cleanC2
    ∧ (CleaningRep.mk 2 1 1 0 0 0 ["Removed 1 duplicate rows"]).handledMissingValues = 0 :=
  C2_second_clean_no_empty_no_impute dataC2 ["a", "b"] cleanC2
    [[("a", .num 1), ("b", .str "X")]]
    ⟨2, 2, 0, 1, 0, 0, ["Filled 1 missing values using statistical imputation"]⟩
    ⟨2, 1, 1, 0, 0, 0, ["Removed 1 duplicate rows"]⟩
    (by with_unfolding_all rfl) (by with_unfolding_all rfl)

/-- C6 counterexample: `rowC6a` and `rowC6b` are equal as column-to-value
mappings, but `JSON.stringify` serializes keys in the row's own insertion
order, so their serializations differ: the dedup pass keeps both rows and
`findDuplicateRows` counts zero, contradicting the claim that key
insertion order does not matter. -/
theorem C6_key_order_cex :
    rowsEqualAsMappings rowC6a rowC6b ["age", "city"] = true
    ∧ cleanDataset dataC6 ["age", "city"] = some (dataC6, ⟨2, 2, 0, 0, 0, 0, []⟩)
    ∧ findDuplicateRows dataC6 = 0 :=
  ⟨by decide, by with_unfolding_all rfl, by with_unfolding_all rfl⟩

/-- C6 (amended): the dedup pass drops exactly the rows whose
`JSON.stringify` serialization — keys in the row's own JS property order,
not a canonical order — was seen before, keeping first occurrences (the
output is a sublist of the input), and `findDuplicateRows` counts with the
same key: kept rows plus counted duplicates partition the input.  Rows
equal as mappings but with different key insertion order are not
identified (see the counterexample). -/
theorem C6_dedup_count (rows : List Row) :
    (dedupRows rows).Sublist rows
    ∧ (dedupRows rows).length + findDuplicateRows rows = rows.length :=
  ⟨dedupGo_sublist rows [], dedupGo_length_add rows []⟩

theorem mem_insertLe {α : Type} (le : α → α → Bool) (x : α) (l : List α) (a : α) :
    a ∈ insertLe le x l ↔ a = x ∨ a ∈ l := by
  induction l with
  | nil => simp [insertLe]
  | cons y ys ih =>
    simp only [insertLe]
    by_cases hxy : le x y = true
    · rw [if_pos hxy]
      simp [List.mem_cons]
    · rw [if_neg hxy]
      simp only [List.mem_cons, ih]
      tauto

theorem pairwise_insertLe {α : Type} (le : α → α → Bool)
    (htot : ∀ a b, le a b = true ∨ le b a = true)
    (htr : ∀ a b c, le a b = true → le b c = true → le a c = true)
    (x : α) (l : List α) (h : l.Pairwise fun a b => le a b = true) :
    (insertLe le x l).Pairwise fun a b => le a b = true := by
  induction l with
  | nil => simp [insertLe]
  | cons y ys ih =>
    rw [List.pairwise_cons] at h
    obtain ⟨hy, hys⟩ := h
    simp only [insertLe]
    by_cases hxy : le x y = true
    · rw [if_pos hxy]
      refine List.Pairwise.cons ?_ (List.Pairwise.cons hy hys)
      intro z hz
      rcases List.mem_cons.mp hz with rfl | hz'
      · exact hxy
      · exact htr x y z hxy (hy z hz')
    · rw [if_neg hxy]
      refine List.Pairwise.cons ?_ (ih hys)
      intro z hz
      rcases (mem_insertLe le x ys z).mp hz with heq | hz'
      · rw [heq]
        rcases htot x y with h' | h'
        · exact absurd h' hxy
        · exact h'
      · exact hy z hz'

theorem pairwise_sortJs {α : Type} (le : α → α → Bool)
    (htot : ∀ a b, le a b = true ∨ le b a = true)
    (htr : ∀ a b c, le a b = true → le b c = true → le a c = true)
    (l : List α) : (sortJs le l).Pairwise fun a b => le a b = true := by
  induction l with
  | nil => simp [sortJs]
  | cons x xs ih => exact pairwise_insertLe le htot htr x _ ih

theorem insertLe_length {α : Type} (le : α → α → Bool) (x : α) (l : List α) :
    (insertLe le x l).length = l.length + 1 := by
  induction l with
  | nil => rfl
  | cons y ys ih =>
    simp only [insertLe]
    by_cases hxy : le x y = true
    · rw [if_pos hxy]
      rfl
    · rw [if_neg hxy]
      simp [ih]

theorem sortJs_length {α : Type} (le : α → α → Bool) (l : List α) :
    (sortJs le l).length = l.length := by
  induction l with
  | nil => rfl
  | cons x xs ih =>
    simp only [sortJs]
    rw [insertLe_length, ih]
    rfl

theorem sortJs_rat_sorted (l : List ℚ) :
    (sortJs (fun a b => a ≤ b) l).Pairwise (· ≤ ·) := by
  have h := pairwise_sortJs (fun a b : ℚ => decide (a ≤ b))
    (fun a b => by
      rcases le_total a b with h | h
      · exact Or.inl (decide_eq_true h)
      · exact Or.inr (decide_eq_true h))
    (fun a b c hab hbc => decide_eq_true (le_trans (of_decide_eq_true hab) (of_decide_eq_true hbc)))
    l
  exact h.imp fun hab => of_decide_eq_true hab

theorem sorted_get_le {l : List ℚ} (h : l.Pairwise (· ≤ ·)) {i j : Nat} (hij : i ≤ j)
    {a b : ℚ} (ha : l.get? i = some a) (hb : l.get? j = some b) : a ≤ b := by
  have hj : j < l.length := by
    by_contra hlt
    rw [List.get?_eq_none.mpr (le_of_not_lt hlt)] at hb
    cases hb
  have hi : i < l.length := lt_of_le_of_lt hij hj
  rw [List.get?_eq_get hi] at ha
  rw [List.get?_eq_get hj] at hb
  injection ha with ha
  injection hb with hb
  subst ha
  subst hb
  rcases lt_or_eq_of_le hij with hlt | heq
  · exact List.pairwise_iff_get.mp h ⟨i, hi⟩ ⟨j, hj⟩ hlt
  · subst heq
    rfl

theorem analyzeColumnForCleaning_bounds {data : List Row} {c : String} {info : ColCleanInfo}
    (h : analyzeColumnForCleaning data c = some info) (hty : info.type = .numeric) :
    (iqrBounds info).1 ≤ (iqrBounds info).2 := by
  simp only [analyzeColumnForCleaning] at h
  split at h
  case isTrue hgt =>
    rw [Option.some_inj] at h
    subst h
    set numericValues := (colNonNull data c).filter isNumericJs with hnv
    have hn0 : numericValues.length ≠ 0 := by
      intro h0
      rw [h0] at hgt
      norm_num at hgt
    set nums := sortJs (fun a b => a ≤ b) (numericValues.map fun v => (jsToNumber v).getD 0)
      with hnums
    have hlen : nums.length = numericValues.length := by
      rw [hnums, sortJs_length, List.length_map]
    have hpos : 0 < nums.length := by
      rw [hlen]
      exact Nat.pos_of_ne_zero hn0
    have hi1 : nums.length / 4 < nums.length := Nat.div_lt_self hpos (by norm_num)
    have hi3 : 3 * nums.length / 4 < nums.length := by
      omega
    obtain ⟨a, ha⟩ : ∃ a, nums.get? (nums.length / 4) = some a :=
      ⟨nums.get ⟨_, hi1⟩, List.get?_eq_get hi1⟩
    obtain ⟨b, hb⟩ : ∃ b, nums.get? (3 * nums.length / 4) = some b :=
      ⟨nums.get ⟨_, hi3⟩, List.get?_eq_get hi3⟩
    have hab : a ≤ b := by
      refine sorted_get_le (sortJs_rat_sorted _) ?_ ha hb
      omega
    simp only [iqrBounds, ha, hb, Option.getD_some]
    linarith
  case isFalse hle =>
    split at h
    · cases h
    · rw [Option.some_inj] at h
      subst h
      by_cases hb : ((colNonNull data c).any isBooleanLike) = true
      · rw [if_pos hb] at hty
        cases hty
      · rw [if_neg hb] at hty
        cases hty

theorem analyzeColumnsForCleaning_getInfo {data : List Row} {cols : List String}
    {A : List (String × ColCleanInfo)} {c : String}
    (h : analyzeColumnsForCleaning data cols = some A) (hc : c ∈ cols) :
    analyzeColumnForCleaning data c = some (getInfo A c) := by
  induction cols generalizing A with
  | nil => cases hc
  | cons c0 cs ih =>
    simp only [analyzeColumnsForCleaning] at h
    rcases h0 : analyzeColumnForCleaning data c0 with _ | i0
    · rw [h0] at h
      cases h
    · rw [h0] at h
      rcases hrest : analyzeColumnsForCleaning data cs with _ | rest
      · rw [hrest] at h
        cases h
      · rw [hrest] at h
        rw [Option.some_inj] at h
        subst h
        by_cases hcc : c0 = c
        · subst hcc
          have : getInfo ((c0, i0) :: rest) c0 = i0 := by
            simp [getInfo, List.find?]
          rw [this]
          exact h0
        · have : getInfo ((c0, i0) :: rest) c = getInfo rest c := by
            simp [getInfo, List.find?, hcc]
          rw [this]
          exact ih hrest ((List.mem_cons.mp hc).resolve_left fun he => hcc he.symm)

/-- C5 counterexample: on `dataC5` the column analysis computes the fences
`[-7, 17]` (q1 = 2, q3 = 8), the capping pass leaves the string cell
`"100"` untouched (it is not a native number), and the subsequent
type-standardization pass coerces it to the number 100, so the final
cleaned output has a numeric value outside the fences — the claim fails on
the final output. -/
theorem C5_outlier_escape_cex :
    cleanDataset dataC5 ["a"] = some (cleanC5,
      ⟨11, 11, 0, 0, 0, 1, ["Corrected 1 data type inconsistencies"]⟩)
    ∧ analyzeColumnsForCleaning (dedupRows (removeEmptyRows dataC5)) ["a"]
        = some [("a", infoC5)]
    ∧ iqrBounds infoC5 = (-7, 17)
    ∧ colNumsWithin cleanC5 "a" (-7) 17 = false :=
  ⟨by with_unfolding_all rfl, by with_unfolding_all rfl,
   by with_unfolding_all rfl, by with_unfolding_all rfl⟩

/-- C5 (amended): for a column the cleaning analysis typed numeric with
more than 10 non-null values, every cell of that column that is a native
number immediately after the outlier-capping pass lies within
`[Q1 − 1.5·IQR, Q3 + 1.5·IQR]` computed from the pre-capping analysis,
out-of-range numbers having been clamped to the nearer fence; the
subsequent type-standardization pass can still introduce out-of-range
numbers from string-typed cells (see the counterexample). -/
theorem C5_capped_values_within (d2 : List Row) (cols : List String)
    (A : List (String × ColCleanInfo)) (c : String) (info : ColCleanInfo)
    (rows : List Row)
    (hA : analyzeColumnsForCleaning d2 cols = some A)
    (hc : c ∈ cols)
    (hinfo : getInfo A c = info)
    (hty : info.type = .numeric)
    (hlen : 10 < info.values.length) :
    colNumsWithin (capAll A cols rows).1 c (iqrBounds info).1 (iqrBounds info).2 = true := by
  have h1 := analyzeColumnsForCleaning_getInfo hA hc
  rw [hinfo] at h1
  have hlohi := analyzeColumnForCleaning_bounds h1 hty
  exact capAll_within hinfo hty hlen hlohi cols hc rows

/-- Witness for the amended C5: capping the single row `{a: 100}` with
`dataC5`'s column analysis clamps it into the fences. -/
theorem C5_capped_values_within_witness :
    colNumsWithin (capAll [("a", infoC5)] ["a"] [[("a", .num 100)]]).1 "a"
      (iqrBounds infoC5).1 (iqrBounds infoC5).2 = true :=
  C5_capped_values_within dataC5 ["a"] [("a", infoC5)] "a" infoC5 [[("a", .num 100)]]
    (by with_unfolding_all rfl) (by decide) (by with_unfolding_all rfl)
    (by with_unfolding_all rfl) (by decide)

theorem rat_div_gt_iff (a b : ℕ) (hab : a ≤ b) :
    ((a : ℚ) / (b : ℚ) > 4/5 ↔ 4 * b < 5 * a) := by
  rcases Nat.eq_zero_or_pos b with hb | hb
  · subst hb
    have ha : a = 0 := Nat.le_zero.mp hab
    subst ha
    norm_num
  · have hbq : (0 : ℚ) < (b : ℚ) := by exact_mod_cast hb
    rw [gt_iff_lt, div_lt_div_iff₀ (by norm_num) hbq]
    constructor
    · intro h
      exact_mod_cast (by linarith : (4 : ℚ) * b < 5 * a)
    · intro h
      have : (4 : ℚ) * b < 5 * a := by exact_mod_cast h
      linarith

/-- C4 counterexample: a column whose five non-null values are the strings
"1".."5".  The claim's rule (numeric strings count toward the 0.8
fraction) classifies it numeric, but `analyzeColumns` counts only native
numbers (`typeof v === 'number'`) and native booleans, so `analyze`
classifies it categorical. -/
theorem C4_report_classifier_cex :
    (analyzeData dsC4).map (fun r => r.columns.map fun ci => ci.type) = some [.categorical]
    ∧ specReportClassify (colNonNull dsC4.data "v") = .numeric :=
  ⟨by with_unfolding_all rfl, by with_unfolding_all rfl⟩

/-- C4 (amended): in the post-cleaning/report classification, a column is
numeric exactly when the fraction of its non-null values that are native
numbers exceeds 0.8 (strings that parse as numbers do not count — they
count only in the 0.7 pre-cleaning classifier), and otherwise boolean
exactly when some non-null value is a native boolean (boolean word strings
do not count). -/
theorem C4_report_classifier_characterization (data : List Row) (c : String) :
    ((analyzeColumnInfo data c).type = .numeric ↔
      4 * (colNonNull data c).length <
        5 * ((colNonNull data c).filter fun v => isNumValOpt (some v)).length)
    ∧ ((analyzeColumnInfo data c).type = .boolean ↔
      (¬ 4 * (colNonNull data c).length <
        5 * ((colNonNull data c).filter fun v => isNumValOpt (some v)).length)
      ∧ (colNonNull data c).any (fun v => isBoolValOpt (some v)) = true) := by
  have htype : (analyzeColumnInfo data c).type =
      (if (((colNonNull data c).filter fun v => isNumValOpt (some v)).length : ℚ)
          / ((colNonNull data c).length : ℚ) > 4/5 then ColType.numeric
       else if (colNonNull data c).any (fun v => isBoolValOpt (some v)) then ColType.boolean
       else if (colNonNull data c).any isDateString then ColType.datetime
       else ColType.categorical) := rfl
  have hfrac := rat_div_gt_iff
    ((colNonNull data c).filter fun v => isNumValOpt (some v)).length
    (colNonNull data c).length
    (List.length_filter_le _ _)
  rw [htype]
  by_cases hnum : (((colNonNull data c).filter fun v => isNumValOpt (some v)).length : ℚ)
      / ((colNonNull data c).length : ℚ) > 4/5
  · rw [if_pos hnum]
    constructor
    · simp only [true_iff]
      exact hfrac.mp hnum
    · constructor
      · intro h
        cases h
      · intro ⟨h1, _⟩
        exact absurd (hfrac.mp hnum) h1
  · rw [if_neg hnum]
    constructor
    · constructor
      · intro h
        by_cases hbool : (colNonNull data c).any (fun v => isBoolValOpt (some v)) = true
        · rw [if_pos hbool] at h
          cases h
        · rw [if_neg hbool] at h
          by_cases hdate : (colNonNull data c).any isDateString = true
          · rw [if_pos hdate] at h
            cases h
          · rw [if_neg hdate] at h
            cases h
      · intro h
        exact absurd (hfrac.mpr h) hnum
    · by_cases hbool : (colNonNull data c).any (fun v => isBoolValOpt (some v)) = true
      · rw [if_pos hbool]
        simp only [true_iff]
        exact ⟨fun h => hnum (hfrac.mpr h), hbool⟩
      · rw [if_neg hbool]
        constructor
        · intro h
          by_cases hdate : (colNonNull data c).any isDateString = true
          · rw [if_pos hdate] at h
            cases h
          · rw [if_neg hdate] at h
            cases h
        · intro ⟨_, h2⟩
          exact absurd h2 hbool

/-- C7: the example scenario.  On the four-row `age`/`city` dataset,
`clean` removes the duplicate `{age:30, city:"NY"}` row, imputes the null
age with the column median 30, and reports `removedDuplicates = 1` and
`handledMissingValues = 1`; `analyze` on the cleaned data classifies `age`
numeric and `city` categorical, with `age`'s mean `85/3 = 28.33…` and
`city`'s most frequent value `"NY"`. -/
theorem C7_example_dataset :
    cleanDataset dataC7 ["age", "city"] = some (cleanC7,
      ⟨4, 3, 1, 1, 0, 0,
       ["Removed 1 duplicate rows", "Filled 1 missing values using statistical imputation"]⟩)
    ∧ (analyzeData dsC7).map (fun r => r.columns.map fun ci => (ci.name, ci.type))
        = some [("age", .numeric), ("city", .categorical)]
    ∧ (analyzeData dsC7).map (fun r => (r.numericStats.lookup "age").map fun st => st.mean)
        = some (some (85/3))
    ∧ (analyzeData dsC7).map (fun r => (r.categoricalStats.lookup "city").map
        fun st => st.mostFrequent) = some (some "NY") :=
  ⟨by with_unfolding_all rfl, by with_unfolding_all rfl,
   by with_unfolding_all rfl, by with_unfolding_all rfl⟩

/-- C8: on `x = [1,2,3]`, `y = [9,6,3]` the correlation engine reports the
single pair with exact coefficient −1 (Pearson numerator −6, squared
denominator 36), strength strong, direction negative, and the pair is
retained since `|−1| > 0.1`. -/
theorem C8_perfect_negative_correlation :
    (analyzeData dsC8).map (fun r => r.correlations)
      = some [{ column1 := "x", column2 := "y", coeffNum := -6, coeffDen2 := 36,
                coefficient := some (-1), strength := .strong, direction := .negative }] :=
  by with_unfolding_all rfl

theorem bumpKey_ne_nil {α : Type} [DecidableEq α] (l : List (α × Nat)) (k : α) :
    bumpKey l k ≠ [] := by
  cases l with
  | nil => simp [bumpKey]
  | cons e rest =>
    obtain ⟨k', n⟩ := e
    by_cases h : k' = k
    · simp [bumpKey, h]
    · simp [bumpKey, h]

theorem foldl_bumpKey_ne_nil {α : Type} [DecidableEq α] (l : List α) :
    ∀ acc : List (α × Nat), acc ≠ [] → l.foldl bumpKey acc ≠ [] := by
  induction l with
  | nil => intro acc h; exact h
  | cons x xs ih =>
    intro acc _
    rw [List.foldl_cons]
    exact ih _ (bumpKey_ne_nil acc x)

theorem buildFreq_ne_nil {α : Type} [DecidableEq α] {l : List α} (h : l ≠ []) :
    buildFreq l ≠ [] := by
  cases l with
  | nil => exact absurd rfl h
  | cons x xs =>
    show (x :: xs).foldl bumpKey [] ≠ []
    rw [List.foldl_cons]
    exact foldl_bumpKey_ne_nil xs _ (bumpKey_ne_nil [] x)

theorem filter_length_split {α : Type} (p : α → Bool) (l : List α) :
    (l.filter p).length + (l.filter fun a => !(p a)).length = l.length := by
  induction l with
  | nil => rfl
  | cons x xs ih =>
    simp only [List.filter_cons]
    by_cases h : p x = true
    · rw [if_pos h, if_neg (by simp [h])]
      simp only [List.length_cons]
      omega
    · rw [if_neg h, if_pos (by simp [h])]
      simp only [List.length_cons]
      omega

theorem jsOrderRatKeys_ne_nil {α : Type} {l : List (ℚ × α)} (h : l ≠ []) :
    jsOrderRatKeys l ≠ [] := by
  have hlen : (jsOrderRatKeys l).length = l.length := by
    simp only [jsOrderRatKeys, List.length_append, sortJs_length]
    exact filter_length_split _ l
  intro he
  rw [he] at hlen
  exact h (List.length_eq_zero.mp hlen.symm)

theorem reduceNoInit_isSome {α : Type} (f : α → α → α) {l : List α} (h : l ≠ []) :
    (reduceNoInit f l).isSome = true := by
  cases l with
  | nil => exact absurd rfl h
  | cons x xs => rfl

theorem numericStatsOf_isSome {values : List ℚ} (h : values ≠ []) :
    (numericStatsOf values).isSome = true := by
  have hne : jsOrderRatKeys (buildFreq values) ≠ [] :=
    jsOrderRatKeys_ne_nil (buildFreq_ne_nil h)
  have hsome := reduceNoInit_isSome (fun a b : ℚ × Nat => if a.2 > b.2 then a else b) hne
  rcases hm : reduceNoInit (fun a b : ℚ × Nat => if a.2 > b.2 then a else b)
      (jsOrderRatKeys (buildFreq values)) with _ | m
  · rw [hm] at hsome
    cases hsome
  · simp [numericStatsOf, hm]

theorem calculateNumericStats_total (data : List Row) :
    ∀ cols : List ColumnInfo, (calculateNumericStats data cols).isSome = true := by
  intro cols
  induction cols with
  | nil => rfl
  | cons col rest ih =>
    simp only [calculateNumericStats]
    by_cases hz : (sortJs (fun a b => a ≤ b) (colNumbers data col.name)).length = 0
    · rw [if_pos hz]
      exact ih
    · rw [if_neg hz]
      have hne : sortJs (fun a b => a ≤ b) (colNumbers data col.name) ≠ [] :=
        fun he => hz (by rw [he]; rfl)
      have h1 := numericStatsOf_isSome hne
      rcases hs : numericStatsOf (sortJs (fun a b => a ≤ b) (colNumbers data col.name))
          with _ | st
      · rw [hs] at h1
        cases h1
      · rcases hr : calculateNumericStats data rest with _ | tail
        · rw [hr] at ih
          cases ih
        · simp [hs, hr]

theorem analyzeData_isSome (ds : Dataset) : (analyzeData ds).isSome = true := by
  simp only [analyzeData]
  have h := calculateNumericStats_total ds.data
    ((analyzeColumns ds).filter fun col => col.type = .numeric)
  rcases hn : calculateNumericStats ds.data
      ((analyzeColumns ds).filter fun col => col.type = .numeric) with _ | ns
  · rw [hn] at h
    cases h
  · simp [hn]

/-- C10: for every dataset with a non-empty column list — including zero
rows, all-null columns and zero-variance numeric columns — `analyze`
returns a result (`some`); the only partial operation inside, the
numeric-stats mode `reduce` with no initial value, is guarded by the
empty-column skip, and each insight/recommendation rule that does not
apply contributes nothing. -/
theorem C10_analyze_total (ds : Dataset) (_hcols : ds.columns ≠ []) :
    (analyzeData ds).isSome = true :=
  analyzeData_isSome ds

/-- Witness for C10 at the degenerate zero-row one-column dataset. -/
theorem C10_analyze_total_witness : (analyzeData dsC9).isSome = true :=
  C10_analyze_total dsC9 (by decide)

theorem nullPercentage_bounds (data : List Row) (c : String) (hd : data ≠ []) :
    ∃ p, (analyzeColumnInfo data c).nullPercentage = some p ∧ 0 ≤ p ∧ p ≤ 100 := by
  have hlen : (colRaw data c).length = data.length := List.length_map _ _
  have hne : (colRaw data c).length ≠ 0 := by
    rw [hlen]
    intro h0
    exact hd (List.length_eq_zero.mp h0)
  have hproj : (analyzeColumnInfo data c).nullPercentage =
      (if (colRaw data c).length = 0 then none
       else some ((((colRaw data c).length - (colNonNull data c).length : Nat) : ℚ)
         / ((colRaw data c).length : ℚ) * 100)) := rfl
  rw [hproj, if_neg hne]
  set a : Nat := (colRaw data c).length - (colNonNull data c).length with ha
  set b : Nat := (colRaw data c).length with hb
  have hab : a ≤ b := Nat.sub_le _ _
  have hbq : (0 : ℚ) < (b : ℚ) := by
    exact_mod_cast Nat.pos_of_ne_zero hne
  refine ⟨(a : ℚ) / (b : ℚ) * 100, rfl, ?_, ?_⟩
  · positivity
  · have h1 : (a : ℚ) ≤ (b : ℚ) := by exact_mod_cast hab
    have h2 : (a : ℚ) / (b : ℚ) ≤ 1 := by
      rw [div_le_one hbq]
      exact h1
    nlinarith

theorem optSum_fold (ps : List (Option ℚ)) :
    ∀ a : ℚ, (∀ p ∈ ps, ∃ q, p = some q ∧ 0 ≤ q ∧ q ≤ 100) →
    ∃ t, List.foldl (fun acc s =>
      match acc, s with
      | some a, some b => some (a + b)
      | _, _ => none) (some a) ps = some t ∧ a ≤ t ∧ t ≤ a + 100 * ps.length := by
  induction ps with
  | nil =>
    intro a _
    exact ⟨a, rfl, le_refl _, by simp⟩
  | cons p ps ih =>
    intro a h
    obtain ⟨q, rfl, hq0, hq100⟩ := h p (List.mem_cons_self _ _)
    rw [List.foldl_cons]
    obtain ⟨t, ht, hat, htb⟩ := ih (a + q) fun p' hp' => h p' (List.mem_cons_of_mem _ hp')
    refine ⟨t, ht, by linarith, ?_⟩
    have hcast : ((ps.length + 1 : Nat) : ℚ) = (ps.length : ℚ) + 1 := by push_cast; ring
    simp only [List.length_cons, hcast]
    linarith

theorem optSum_bounds (ps : List (Option ℚ))
    (h : ∀ p ∈ ps, ∃ q, p = some q ∧ 0 ≤ q ∧ q ≤ 100) :
    ∃ t, optSum ps = some t ∧ 0 ≤ t ∧ t ≤ 100 * ps.length := by
  obtain ⟨t, ht, h0, h100⟩ := optSum_fold ps 0 h
  exact ⟨t, ht, h0, by linarith⟩

theorem calculateQualityScore_bounds (cols : List ColumnInfo) (hc : cols ≠ [])
    (h : ∀ ci ∈ cols, ∃ p, ci.nullPercentage = some p ∧ 0 ≤ p ∧ p ≤ 100) :
    qualityInRange (calculateQualityScore cols) = true := by
  have hlen : cols.length ≠ 0 := fun h0 => hc (List.length_eq_zero.mp h0)
  have hscores : ∀ s ∈ cols.map (fun col => (col.nullPercentage).map fun p => 100 - p),
      ∃ q, s = some q ∧ 0 ≤ q ∧ q ≤ 100 := by
    intro s hs
    obtain ⟨ci, hci, rfl⟩ := List.mem_map.mp hs
    obtain ⟨p, hp, hp0, hp100⟩ := h ci hci
    exact ⟨100 - p, by rw [hp]; rfl, by linarith, by linarith⟩
  obtain ⟨t, ht, ht0, ht100⟩ := optSum_bounds _ hscores
  have hmaplen : (cols.map (fun col => (col.nullPercentage).map fun p => 100 - p)).length
      = cols.length := List.length_map _ _
  rw [hmaplen] at ht100
  simp only [calculateQualityScore, if_neg hlen, ht, Option.map_some']
  have hbq : (0 : ℚ) < (cols.length : ℚ) := by
    exact_mod_cast Nat.pos_of_ne_zero hlen
  simp only [qualityInRange]
  refine decide_eq_true ⟨?_, ?_⟩
  · positivity
  · rw [div_le_iff₀ hbq]
    linarith

theorem analyzeData_qualityScore {ds : Dataset} {r : AnalysisResult}
    (h : analyzeData ds = some r) :
    r.qualityScore = calculateQualityScore (analyzeColumns ds) := by
  simp only [analyzeData] at h
  rcases hn : calculateNumericStats ds.data
      ((analyzeColumns ds).filter fun col => col.type = .numeric) with _ | ns
  · rw [hn] at h
    cases h
  · rw [hn] at h
    rw [Option.some_inj] at h
    subst h
    rfl

/-- C9 counterexample: on a one-column zero-row dataset every
`nullPercentage` is `0/0 = NaN`, the quality score is `NaN` (`none` in the
model), and `NaN` does not lie in `[0, 100]` under the JS comparisons —
the claim's "including one with zero rows" fails. -/
theorem C9_quality_nan_cex :
    (analyzeData dsC9).map (fun r => qualityInRange r.qualityScore) = some false
    ∧ (analyzeData dsC9).bind (fun r => r.qualityScore) = none :=
  ⟨by with_unfolding_all rfl, by with_unfolding_all rfl⟩

/-- C9 (amended): for every dataset with at least one column and at least
one row, the quality score `analyze` produces is a number in the closed
interval `[0, 100]`; with zero rows it is `NaN` instead (see the
counterexample). -/
theorem C9_quality_range (ds : Dataset) (hcols : ds.columns ≠ []) (hrows : ds.data ≠ []) :
    (analyzeData ds).map (fun r => qualityInRange r.qualityScore) = some true := by
  have hs := analyzeData_isSome ds
  rcases ha : analyzeData ds with _ | r
  · rw [ha] at hs
    cases hs
  · rw [Option.map_some']
    congr 1
    rw [analyzeData_qualityScore ha]
    apply calculateQualityScore_bounds
    · simp only [analyzeColumns, ne_eq, List.map_eq_nil_iff]
      exact hcols
    · intro ci hci
      obtain ⟨c, _, rfl⟩ := List.mem_map.mp hci
      exact nullPercentage_bounds ds.data c hrows

/-- Witness for the amended C9 at a one-row one-column dataset. -/
theorem C9_quality_range_witness :
    (analyzeData dsW9).map (fun r => qualityInRange r.qualityScore) = some true :=
  C9_quality_range dsW9 (by decide) (by decide)
